import Mathlib

/-!
The sharpSAT component cache: entries, arena, hash lookup and the descendant tree links.

A shallow embedding of `src/cache_structures.h` and `src/component_cache.h`.

* `assert` is modelled as active: a failed assertion ends the run with
  `Outcome.fatal`, carrying the state in which the assertion failed.
* Behaviour the language leaves undefined (dereferencing a null slot, indexing
  a vector out of range, `%` by zero) ends the run with `Outcome.undefined`.
* `unsigned` values are natural numbers; the modelled code only copies and
  compares them, except in `SizeInBytes`, whose `unsigned long` arithmetic is
  taken modulo `2 ^ ulong_bits`.
-/

namespace SharpSAT

/-! ## Runs that may abort -/

/-- Result of running an operation from a state of type `σ`. -/
inductive Outcome (σ α : Type) where
  /-- normal return with value `a`, leaving state `s` -/
  | ok (a : α) (s : σ)
  /-- an `assert` failed; `s` is the state at the moment of the failure -/
  | fatal (s : σ)
  /-- undefined behaviour was reached in state `s` -/
  | undefined (s : σ)

/-- A state-passing operation that may abort. -/
def Op (σ α : Type) : Type := σ → Outcome σ α

/-- Sequencing: the second operation runs only after a normal return. -/
def Op.bind {σ α β : Type} (m : Op σ α) (f : α → Op σ β) : Op σ β := fun s =>
  match m s with
  | .ok a s1 => f a s1
  | .fatal s1 => .fatal s1
  | .undefined s1 => .undefined s1

instance {σ : Type} : Monad (Op σ) where
  pure a := fun s => .ok a s
  bind := Op.bind

/-- The C `assert(c)`. -/
def assert {σ : Type} (c : Bool) : Op σ Unit := fun s =>
  if c then .ok () s else .fatal s

/-- Read the current state. -/
def getState {σ : Type} : Op σ σ := fun s => .ok s s

/-- Overwrite the current state. -/
def setState {σ : Type} (t : σ) : Op σ Unit := fun _ => .ok () t

/-- Undefined behaviour. -/
def undefinedBehaviour {σ α : Type} : Op σ α := fun s => .undefined s

/-! ## cache_structures.h -/

/-- The type `CacheEntryID` (an unsigned integer, declared in `primitive_types.h`). -/
abbrev CacheEntryID : Type := Nat

/-- The constant of `#define NIL_ENTRY 0`. -/
def NIL_ENTRY : CacheEntryID := 0

/-- Modelled from the spec: the packed base class `T_Component`
(`component_types/simple_packed_component.h` is not among the sources).
The spec describes it as a packed payload, a hash key and an exact
solution count.  `data_` is the owned payload pointer that
`GenericCachedComponent::clear` releases; `none` is `nullptr`. -/
structure SimplePackedComponent where
  data_ : Option (List Nat)
  hashkey_ : Nat
  model_count_ : Int
deriving DecidableEq

/-- Modelled from the spec: the member functions of the packed base class
that the cache calls.  Their bodies are in the absent header, so they are
taken as parameters reading the base object. -/
structure PackedOps where
  hashkey : SimplePackedComponent → Nat
  equals : SimplePackedComponent → SimplePackedComponent → Bool
  model_count : SimplePackedComponent → Int

/-- The class `GenericCachedComponent<T_Component>`: the base object plus the four
private fields, with their in-class initialisers as defaults. -/
structure CachedComponent where
  base : SimplePackedComponent
  component_stack_id_ : Nat := 0
  father_ : CacheEntryID := 0
  first_descendant_ : CacheEntryID := 0
  next_sibling_ : CacheEntryID := 0
deriving DecidableEq

namespace CachedComponent

/-- Method `bool deletable()` -/
def deletable (e : CachedComponent) : Bool := e.component_stack_id_ == 0

/-- Method `void eraseComponentStackID()` -/
def eraseComponentStackID (e : CachedComponent) : CachedComponent :=
  { e with component_stack_id_ := 0 }

/-- Method `void setComponentStackID(unsigned id)` -/
def setComponentStackID (e : CachedComponent) (id : Nat) : CachedComponent :=
  { e with component_stack_id_ := id }

/-- Method `unsigned component_stack_id()` -/
def component_stack_id (e : CachedComponent) : Nat := e.component_stack_id_

/-- Method `void clear()`: asserts the entry is not anchored, then frees the payload
and nulls the pointer. -/
def clear : Op CachedComponent Unit := do
  let e ← getState
  assert (e.component_stack_id_ == 0)
  setState { e with base := { e.base with data_ := none } }

/-- Method `void set_father(CacheEntryID f)` -/
def set_father (e : CachedComponent) (f : CacheEntryID) : CachedComponent :=
  { e with father_ := f }

/-- Method `const CacheEntryID father() const` -/
def father (e : CachedComponent) : CacheEntryID := e.father_

/-- Method `void set_next_sibling(CacheEntryID sibling)` -/
def set_next_sibling (e : CachedComponent) (sibling : CacheEntryID) : CachedComponent :=
  { e with next_sibling_ := sibling }

/-- Method `CacheEntryID next_sibling()` -/
def next_sibling (e : CachedComponent) : CacheEntryID := e.next_sibling_

/-- Method `void set_first_descendant(CacheEntryID descendant)` -/
def set_first_descendant (e : CachedComponent) (descendant : CacheEntryID) :
    CachedComponent :=
  { e with first_descendant_ := descendant }

/-- Method `CacheEntryID first_descendant()` -/
def first_descendant (e : CachedComponent) : CacheEntryID := e.first_descendant_

end CachedComponent

/-- The class `CacheBucket : protected vector<CacheEntryID>` -/
abbrev CacheBucket : Type := List CacheEntryID

/-! ## Collaborators of the cache -/

/-- Modelled from the spec: the statistics sink `DataAndStatistics`
(`statistics.h` is not among the sources), which "receives counters for
lookups, hits, and erases".  The model keeps the look-up counter (a natural
number: its C type is declared in the absent header) and, in call order, the
arguments of `incorporate_cache_hit` and `incorporate_cache_erase`. -/
structure DataAndStatistics where
  num_cache_look_ups_ : Nat := 0
  cache_hits : List CachedComponent := []
  cache_erases : List CachedComponent := []
deriving DecidableEq

/-- Modelled from the spec: `statistics_.incorporate_cache_hit(comp)`. -/
def DataAndStatistics.incorporate_cache_hit (st : DataAndStatistics)
    (comp : CachedComponent) : DataAndStatistics :=
  { st with cache_hits := st.cache_hits ++ [comp] }

/-- Modelled from the spec: `statistics_.incorporate_cache_erase(comp)`. -/
def DataAndStatistics.incorporate_cache_erase (st : DataAndStatistics)
    (comp : CachedComponent) : DataAndStatistics :=
  { st with cache_erases := st.cache_erases ++ [comp] }

/-- Modelled from the spec: the recursion frame `StackLevel` (`stack.h` is not
among the sources), which "receives a folded-in solution count on a cache
hit".  The model keeps, in call order, the counts passed to
`includeSolution`. -/
structure StackLevel where
  included : List Int := []
deriving DecidableEq

/-- Modelled from the spec: `top.includeSolution(count)`. -/
def StackLevel.includeSolution (top : StackLevel) (solutions : Int) : StackLevel :=
  { top with included := top.included ++ [solutions] }

/-! ## component_cache.h -/

/-- The data members of `ComponentCache`.  A `vector<X *>` is a list of
optional values, `none` being `nullptr`; `statistics_` is the referenced
statistics object. -/
structure ComponentCache where
  entry_base_ : List (Option CachedComponent) := []
  free_entry_base_slots_ : List CacheEntryID := []
  table_ : List (Option CacheBucket) := []
  statistics_ : DataAndStatistics := {}
  num_occupied_buckets_ : Nat := 0
  my_time_ : Nat := 0
deriving DecidableEq

namespace ComponentCache

/-- The pointer `entry_base_[id]`: `none` for a null slot (and for an id
outside the arena, which the callers below exclude before reading). -/
def slot (s : ComponentCache) (id : CacheEntryID) : Option CachedComponent :=
  s.entry_base_[id]?.getD none

/-- Method `CachedComponent &entry(CacheEntryID id)` as a read: both assertions, then
the entry stored in the slot. -/
def entry (id : CacheEntryID) : Op ComponentCache CachedComponent := do
  let s ← getState
  assert (decide (s.entry_base_.length > id))
  assert (s.slot id != none)
  match s.slot id with
  | some e => pure e
  | none => undefinedBehaviour

/-- The cache with the object in arena slot `id` replaced by `e`. -/
def setSlot (s : ComponentCache) (id : CacheEntryID) (e : CachedComponent) : ComponentCache :=
  { s with entry_base_ := s.entry_base_.set id (some e) }

/-- A write through the reference returned by `entry(id)`: the object in
slot `id` becomes `e`. -/
def storeEntry (id : CacheEntryID) (e : CachedComponent) : Op ComponentCache Unit := do
  let s ← getState
  setState (s.setSlot id e)

/-- Method `bool hasEntry(CacheEntryID id)` -/
def hasEntry (id : CacheEntryID) : Op ComponentCache Bool := do
  let s ← getState
  assert (decide (s.entry_base_.length > id))
  pure (s.slot id != none)

/-- Method `CacheBucket *bucketOf(const CachedComponent &packed_comp)`; with an empty
table both the `%` and the indexing are undefined. -/
def bucketOf (ops : PackedOps) (packed_comp : CachedComponent) :
    Op ComponentCache (Option CacheBucket) := do
  let s ← getState
  if s.table_.length = 0 then undefinedBehaviour
  else pure (s.table_[ops.hashkey packed_comp.base % s.table_.length]?.getD none)

/-- The `for` loop of `manageNewComponent` over the ids of the bucket, from
the iterator position onwards.  The result is the returned flag together
with the frame `top`. -/
def scanBucket (ops : PackedOps) (top : StackLevel) (packed_comp : CachedComponent) :
    List CacheEntryID → Op ComponentCache (Bool × StackLevel)
  | [] => pure (false, top)
  | it :: rest => do
    let e ← entry it
    if ops.equals e.base packed_comp.base then
      let s ← getState
      setState { s with statistics_ := s.statistics_.incorporate_cache_hit packed_comp }
      let e1 ← entry it
      pure (true, top.includeSolution (ops.model_count e1.base))
    else
      scanBucket ops top packed_comp rest

/-- Method `bool manageNewComponent(StackLevel &top, CachedComponent &packed_comp)`.
The frame `top` is passed by reference: the result carries its final value. -/
def manageNewComponent (ops : PackedOps) (top : StackLevel)
    (packed_comp : CachedComponent) : Op ComponentCache (Bool × StackLevel) := do
  let s ← getState
  setState { s with statistics_ :=
    { s.statistics_ with num_cache_look_ups_ := s.statistics_.num_cache_look_ups_ + 1 } }
  let p_bucket ← bucketOf ops packed_comp
  match p_bucket with
  | some bucket => scanBucket ops top packed_comp bucket
  | none => pure (false, top)

/-- Method `void eraseEntry(CacheEntryID id)`: the unchecked erase.  There is no
assertion: `*entry_base_[id]` on an out-of-range id or a null slot is
undefined. -/
def eraseEntry (id : CacheEntryID) : Op ComponentCache Unit := do
  let s ← getState
  if s.entry_base_.length > id then
    match s.slot id with
    | some e =>
      setState { s with
        statistics_ := s.statistics_.incorporate_cache_erase e
        entry_base_ := s.entry_base_.set id none
        free_entry_base_slots_ := s.free_entry_base_slots_ ++ [id] }
    | none => undefinedBehaviour
  else undefinedBehaviour

/-- Method `void add_descendant(CacheEntryID compid, CacheEntryID descendantid)` -/
def add_descendant (compid descendantid : CacheEntryID) : Op ComponentCache Unit := do
  let c ← entry compid
  assert (descendantid != c.first_descendant)
  let d ← entry descendantid
  let c1 ← entry compid
  storeEntry descendantid (d.set_next_sibling c1.first_descendant)
  let c2 ← entry compid
  storeEntry compid (c2.set_first_descendant descendantid)

/-- Method `void remove_firstdescendantOf(CacheEntryID compid)` -/
def remove_firstdescendantOf (compid : CacheEntryID) : Op ComponentCache Unit := do
  let c ← entry compid
  let desc := c.first_descendant
  if desc != 0 then
    let c1 ← entry compid
    let d ← entry desc
    storeEntry compid (c1.set_first_descendant d.next_sibling)
  else pure ()

end ComponentCache

end SharpSAT

namespace SharpSAT

/-! ## Reading results and states -/

/-- The state in which a run ended, whichever way it ended. -/
def Outcome.state {σ α : Type} : Outcome σ α → σ
  | .ok _ s => s
  | .fatal s => s
  | .undefined s => s

/-- Whether a run ended in a failed assertion. -/
def Outcome.isFatal {σ α : Type} : Outcome σ α → Bool
  | .fatal _ => true
  | _ => false

namespace ComponentCache

/-- The table index `packed_comp.hashkey() % table_.size()` used by `bucketOf`. -/
def bucketIndex (ops : PackedOps) (s : ComponentCache) (packed_comp : CachedComponent) : Nat :=
  ops.hashkey packed_comp.base % s.table_.length

/-- The cache after `statistics_.num_cache_look_ups_++` and nothing else. -/
def countLookup (s : ComponentCache) : ComponentCache :=
  { s with statistics_ :=
    { s.statistics_ with num_cache_look_ups_ := s.statistics_.num_cache_look_ups_ + 1 } }

/-- The cache after `statistics_.incorporate_cache_hit(packed_comp)` and
nothing else. -/
def recordHit (s : ComponentCache) (packed_comp : CachedComponent) : ComponentCache :=
  { s with statistics_ := s.statistics_.incorporate_cache_hit packed_comp }

end ComponentCache

/-! ## Predicates used in the statements -/

/-- The packed equality test is an equivalence relation. -/
def PackedOps.EqualsIsEquivalence (ops : PackedOps) : Prop :=
  (∀ a, ops.equals a a = true) ∧
  (∀ a b, ops.equals a b = true → ops.equals b a = true) ∧
  (∀ a b c, ops.equals a b = true → ops.equals b c = true → ops.equals a c = true)

/-- Invariant I4: no two distinct live entries are `equals()` to each other. -/
def ComponentCache.NoEqualLiveEntries (ops : PackedOps) (s : ComponentCache) : Prop :=
  ∀ i j ei ej, s.slot i = some ei → s.slot j = some ej → i ≠ j →
    ops.equals ei.base ej.base = false

/-- Every id stored in an allocated bucket of the table is a live entry. -/
def ComponentCache.BucketIdsLive (s : ComponentCache) : Prop :=
  ∀ bkt, some bkt ∈ s.table_ → ∀ i ∈ bkt, ∃ e, s.slot i = some e

/-! ## Concrete data for evaluating the model -/

/-- A concrete packed interface: the hash key and the count are the stored
fields, and two packed components are equal when their payloads are. -/
def fieldOps : PackedOps where
  hashkey c := c.hashkey_
  equals a b := decide (a.data_ = b.data_)
  model_count c := c.model_count_

/-- An entry with payload `[1]`, hash key 1 and count 5. -/
def entryA : CachedComponent := { base := { data_ := some [1], hashkey_ := 1, model_count_ := 5 } }

/-- An entry with payload `[2]`, hash key 3 and count 7; in a table of size 2
it collides with `entryA`. -/
def entryB : CachedComponent := { base := { data_ := some [2], hashkey_ := 3, model_count_ := 7 } }

/-- A second entry with payload `[2]` but count 9. -/
def entryB2 : CachedComponent := { base := { data_ := some [2], hashkey_ := 3, model_count_ := 9 } }

/-- A freshly packed candidate with payload `[2]` and hash key 3. -/
def candidateB : CachedComponent := { base := { data_ := some [2], hashkey_ := 3, model_count_ := 0 } }

/-- A freshly packed candidate with payload `[4]` and hash key 4. -/
def candidateC : CachedComponent := { base := { data_ := some [4], hashkey_ := 4, model_count_ := 0 } }

/-- A cache holding `entryA` and `entryB` in the same bucket: arena
`[null, A, B]`, table `[null, [1, 2]]`. -/
def collidingCache : ComponentCache :=
  { entry_base_ := [none, some entryA, some entryB], table_ := [none, some [1, 2]] }

/-- A cache whose bucket holds two entries equal to `candidateB`: arena
`[null, A, B, B2]`, table `[null, [1, 2, 3]]`. -/
def duplicateCache : ComponentCache :=
  { entry_base_ := [none, some entryA, some entryB, some entryB2],
    table_ := [none, some [1, 2, 3]] }

/-- An entry anchored at position 1 of the component stack. -/
def entryAnchored : CachedComponent :=
  { base := { data_ := some [3], hashkey_ := 2, model_count_ := 0 }, component_stack_id_ := 1 }

/-- A cache whose only entry, at id 1, is anchored: arena `[null, anchored]`. -/
def anchoredCache : ComponentCache :=
  { entry_base_ := [none, some entryAnchored] }

/-- A cache whose only entry, at id 1, is `entryA`, with no tree links. -/
def singletonCache : ComponentCache :=
  { entry_base_ := [none, some entryA] }

/-! ## cache_structures.h: construction and footprint -/

/-- Modelled from the spec: the size reporting of the packed base class
("`data_size()` and payload-size reporting for memory accounting"), whose
header is not among the sources, together with the implementation constants
that `SizeInBytes` uses: `sizeof(GenericCachedComponent<T_Component>)`,
`sizeof(unsigned)` and the number of bits of `unsigned long`. -/
structure SizeOps where
  sizeof_entry : Nat
  sizeof_unsigned : Nat
  ulong_bits : Nat
  data_size : SimplePackedComponent → Nat
  size_of_model_count : SimplePackedComponent → Nat

namespace CachedComponent

/-- Constructor `GenericCachedComponent()`: the base object is default
constructed (to `b`, by the absent base class) and the four fields take their
in-class initialisers. -/
def construct (b : SimplePackedComponent) : CachedComponent :=
  { base := b }

/-- Constructor `GenericCachedComponent(Component &comp, unsigned component_stack_id)`:
the base object is `T_Component(comp)` (here `packed`, built by the absent base
class), `component_stack_id_` is initialised from the argument and the three
links take their in-class initialisers. -/
def constructFrom (packed : SimplePackedComponent) (component_stack_id : Nat) :
    CachedComponent :=
  { base := packed, component_stack_id_ := component_stack_id }

/-- The exact value of the sum in `SizeInBytes`, before any wrap-around. -/
def footprintSum (sz : SizeOps) (e : CachedComponent) : Nat :=
  sz.sizeof_entry + sz.data_size e.base * sz.sizeof_unsigned + sz.size_of_model_count e.base

/-- Method `unsigned long SizeInBytes() const`: the product and the two sums
are computed in `unsigned long`, that is modulo `2 ^ ulong_bits`. -/
def SizeInBytes (sz : SizeOps) (e : CachedComponent) : Nat :=
  ((sz.sizeof_entry + (sz.data_size e.base * sz.sizeof_unsigned) % 2 ^ sz.ulong_bits)
      % 2 ^ sz.ulong_bits
    + sz.size_of_model_count e.base) % 2 ^ sz.ulong_bits

end CachedComponent

/-! ## Child chains and the free list -/

namespace ComponentCache

/-- The chain of siblings: starting at id `x` and following `next_sibling`
visits exactly the ids of the list, each a live entry, and then reaches
`NIL_ENTRY`. -/
def IsSiblingChain (s : ComponentCache) : CacheEntryID → List CacheEntryID → Prop
  | x, [] => x = NIL_ENTRY
  | x, y :: L => x ≠ NIL_ENTRY ∧ y = x ∧
      ∃ e, s.slot x = some e ∧ IsSiblingChain s e.next_sibling L

/-- The child list of entry `c`: the sibling chain that starts at
`first_descendant(c)`. -/
def HasChildren (s : ComponentCache) (c : CacheEntryID) (L : List CacheEntryID) : Prop :=
  ∃ ec, s.slot c = some ec ∧ IsSiblingChain s ec.first_descendant L

/-- The id reached from `x` after `n` steps along `next_sibling`; `none` when
a step would read a slot that holds no entry. -/
def siblingWalk (s : ComponentCache) : Nat → CacheEntryID → Option CacheEntryID
  | 0, x => some x
  | n + 1, x =>
    match s.slot x with
    | some e => siblingWalk s n e.next_sibling
    | none => none

/-- The free-list invariant: every id in `free_entry_base_slots_` is inside
the arena, its slot is null, and no id occurs twice. -/
def FreeListInv (s : ComponentCache) : Prop :=
  (∀ i ∈ s.free_entry_base_slots_,
    i < s.entry_base_.length ∧ s.entry_base_[i]? = some none) ∧
  s.free_entry_base_slots_.Nodup

end ComponentCache

/-! ## More concrete data -/

/-- Concrete sizes: an entry object of 48 bytes, 4-byte `unsigned`, 64-bit
`unsigned long`, the payload length as `data_size()` and 16 bytes of count
storage. -/
def exampleSizes : SizeOps where
  sizeof_entry := 48
  sizeof_unsigned := 4
  ulong_bits := 64
  data_size b := (b.data_.getD []).length
  size_of_model_count _ := 16

/-- An entry without payload, as a default-constructed one. -/
def dummyEntry : CachedComponent :=
  { base := { data_ := none, hashkey_ := 0, model_count_ := 0 } }

/-- A cache whose slot 0 holds an entry: arena `[dummy, A, B]` where entry 1
has the single child 2. -/
def zeroSlotCache : ComponentCache :=
  { entry_base_ := [some dummyEntry, some { entryA with first_descendant_ := 2 },
      some { entryB with father_ := 1 }] }

/-- A cache in which entry 1 has the child chain `[2, 3]`: arena
`[null, A, B, B2]`. -/
def chainCache : ComponentCache :=
  { entry_base_ := [none, some { entryA with first_descendant_ := 2 },
      some { entryB with father_ := 1, next_sibling_ := 3 },
      some { entryB2 with father_ := 1 }] }

/-- The cache `chainCache` after entry 3 has been linked once more under
entry 1: entry 1 has `first_descendant` 3, entry 3 has `next_sibling` 2 and
entry 2 still has `next_sibling` 3. -/
def cyclicCache : ComponentCache :=
  { entry_base_ := [none, some { entryA with first_descendant_ := 3 },
      some { entryB with father_ := 1, next_sibling_ := 3 },
      some { entryB2 with father_ := 1, next_sibling_ := 2 }] }

/-- A cache in which entry 1 has the single child 2 and entry 3 is not yet
linked: arena `[null, A, B, B2]`. -/
def familyCache : ComponentCache :=
  { entry_base_ := [none, some { entryA with first_descendant_ := 2 },
      some { entryB with father_ := 1 }, some entryB2] }

/-- Concrete sizes under which the sum of `SizeInBytes` leaves the range of a
64-bit `unsigned long`: an entry object of 24 bytes, 4-byte `unsigned`, the
payload length as `data_size()` and `2 ^ 64 - 28` bytes reported as count
storage. -/
def wrapSizes : SizeOps where
  sizeof_entry := 24
  sizeof_unsigned := 4
  ulong_bits := 64
  data_size b := (b.data_.getD []).length
  size_of_model_count _ := 2 ^ 64 - 28

/-! ## Basic facts about runs -/

section OpLemmas

variable {σ α β : Type}

@[simp] theorem run_pure (a : α) (s : σ) : (pure a : Op σ α) s = .ok a s := rfl

@[simp] theorem run_getState_bind (f : σ → Op σ β) (s : σ) :
    (getState >>= f) s = f s s := rfl

@[simp] theorem run_setState_bind (t : σ) (f : Unit → Op σ β) (s : σ) :
    (setState t >>= f) s = f () t := rfl

@[simp] theorem run_setState (t s : σ) : (setState t : Op σ Unit) s = .ok () t := rfl

@[simp] theorem run_assert_bind (c : Bool) (f : Unit → Op σ β) (s : σ) :
    (assert c >>= f) s = if c then f () s else .fatal s := by
  cases c <;> rfl

@[simp] theorem run_undefinedBehaviour (s : σ) :
    (undefinedBehaviour : Op σ α) s = .undefined s := rfl

theorem run_bind_ok {m : Op σ α} {a : α} {s s1 : σ} (f : α → Op σ β)
    (h : m s = .ok a s1) : (m >>= f) s = f a s1 := by
  show Op.bind m f s = _
  simp [Op.bind, h]

theorem run_bind_fatal {m : Op σ α} {s s1 : σ} (f : α → Op σ β)
    (h : m s = .fatal s1) : (m >>= f) s = .fatal s1 := by
  show Op.bind m f s = _
  simp [Op.bind, h]

theorem run_bind_undefined {m : Op σ α} {s s1 : σ} (f : α → Op σ β)
    (h : m s = .undefined s1) : (m >>= f) s = .undefined s1 := by
  show Op.bind m f s = _
  simp [Op.bind, h]

end OpLemmas

namespace ComponentCache

theorem slot_lt_length {s : ComponentCache} {id : CacheEntryID} {e : CachedComponent}
    (h : s.slot id = some e) : id < s.entry_base_.length := by
  by_contra hlt
  simp [slot, List.getElem?_eq_none (Nat.le_of_not_lt hlt)] at h

theorem entry_of_slot {s : ComponentCache} {id : CacheEntryID} {e : CachedComponent}
    (h : s.slot id = some e) : entry id s = .ok e s := by
  have hlt := slot_lt_length h
  simp [entry, hlt, h]

theorem entry_of_slot_none {s : ComponentCache} {id : CacheEntryID}
    (h : s.slot id = none) : entry id s = .fatal s := by
  simp [entry, h]

theorem entry_of_not_lt {s : ComponentCache} {id : CacheEntryID}
    (h : ¬ id < s.entry_base_.length) : entry id s = .fatal s := by
  simp [entry, h]

/-! ## The bucket scan -/

@[simp] theorem slot_countLookup (s : ComponentCache) (id : CacheEntryID) :
    s.countLookup.slot id = s.slot id := rfl

@[simp] theorem slot_recordHit (s : ComponentCache) (c : CachedComponent) (id : CacheEntryID) :
    (s.recordHit c).slot id = s.slot id := rfl

theorem scanBucket_cons_ne (ops : PackedOps) (top : StackLevel) (cand : CachedComponent)
    (s : ComponentCache) (it : CacheEntryID) (rest : List CacheEntryID) (e : CachedComponent)
    (hs : s.slot it = some e) (hne : ops.equals e.base cand.base = false) :
    scanBucket ops top cand (it :: rest) s = scanBucket ops top cand rest s := by
  rw [scanBucket, run_bind_ok _ (entry_of_slot hs)]
  simp [hne]

theorem scanBucket_cons_eq (ops : PackedOps) (top : StackLevel) (cand : CachedComponent)
    (s : ComponentCache) (it : CacheEntryID) (rest : List CacheEntryID) (e : CachedComponent)
    (hs : s.slot it = some e) (heq : ops.equals e.base cand.base = true) :
    scanBucket ops top cand (it :: rest) s =
      .ok (true, top.includeSolution (ops.model_count e.base)) (s.recordHit cand) := by
  have h1 : entry it (s.recordHit cand) = .ok e (s.recordHit cand) :=
    entry_of_slot (by simpa using hs)
  rw [scanBucket, run_bind_ok _ (entry_of_slot hs)]
  simp only [heq, if_true, run_getState_bind, run_setState_bind]
  exact run_bind_ok _ h1

theorem scanBucket_cons_fatal (ops : PackedOps) (top : StackLevel) (cand : CachedComponent)
    (s : ComponentCache) (it : CacheEntryID) (rest : List CacheEntryID)
    (hs : s.slot it = none) :
    scanBucket ops top cand (it :: rest) s = .fatal s := by
  rw [scanBucket, run_bind_fatal _ (entry_of_slot_none hs)]

/-- A scan over ids none of which is equal to the candidate returns `false`
and changes nothing. -/
theorem scanBucket_miss (ops : PackedOps) (top : StackLevel) (cand : CachedComponent)
    (s : ComponentCache) :
    ∀ bkt : List CacheEntryID,
      (∀ i ∈ bkt, ∃ e, s.slot i = some e ∧ ops.equals e.base cand.base = false) →
      scanBucket ops top cand bkt s = .ok (false, top) s := by
  intro bkt
  induction bkt with
  | nil => intro _; rfl
  | cons it rest ih =>
    intro h
    obtain ⟨e, hs, hne⟩ := h it (List.mem_cons_self _ _)
    rw [scanBucket_cons_ne ops top cand s it rest e hs hne]
    exact ih (fun i hi => h i (List.mem_cons_of_mem _ hi))

/-- A scan stops at the first id whose entry is equal to the candidate. -/
theorem scanBucket_hit (ops : PackedOps) (top : StackLevel) (cand : CachedComponent)
    (s : ComponentCache) (i : CacheEntryID) (post : List CacheEntryID) (e : CachedComponent)
    (hs : s.slot i = some e) (heq : ops.equals e.base cand.base = true) :
    ∀ pre : List CacheEntryID,
      (∀ j ∈ pre, ∃ ej, s.slot j = some ej ∧ ops.equals ej.base cand.base = false) →
      scanBucket ops top cand (pre ++ i :: post) s =
        .ok (true, top.includeSolution (ops.model_count e.base)) (s.recordHit cand) := by
  intro pre
  induction pre with
  | nil => intro _; exact scanBucket_cons_eq ops top cand s i post e hs heq
  | cons it rest ih =>
    intro h
    obtain ⟨ej, hsj, hne⟩ := h it (List.mem_cons_self _ _)
    rw [List.cons_append, scanBucket_cons_ne ops top cand s it _ ej hsj hne]
    exact ih (fun j hj => h j (List.mem_cons_of_mem _ hj))

/-- A bucket of live ids either has no entry equal to the candidate, or splits
at the first one. -/
theorem bucket_split (ops : PackedOps) (cand : CachedComponent) (s : ComponentCache) :
    ∀ bkt : List CacheEntryID, (∀ i ∈ bkt, ∃ e, s.slot i = some e) →
      (∀ i ∈ bkt, ∃ e, s.slot i = some e ∧ ops.equals e.base cand.base = false) ∨
      (∃ pre i post e, bkt = pre ++ i :: post ∧
        (∀ j ∈ pre, ∃ ej, s.slot j = some ej ∧ ops.equals ej.base cand.base = false) ∧
        s.slot i = some e ∧ ops.equals e.base cand.base = true) := by
  intro bkt
  induction bkt with
  | nil => intro _; left; intro i hi; cases hi
  | cons it rest ih =>
    intro hlive
    obtain ⟨e, hs⟩ := hlive it (List.mem_cons_self _ _)
    cases heq : ops.equals e.base cand.base with
    | true => exact Or.inr ⟨[], it, rest, e, rfl, fun j hj => (by cases hj), hs, heq⟩
    | false =>
      rcases ih (fun i hi => hlive i (List.mem_cons_of_mem _ hi)) with hall | hsplit
      · left
        intro i hi
        rcases List.mem_cons.1 hi with rfl | hi
        · exact ⟨e, hs, heq⟩
        · exact hall i hi
      · obtain ⟨pre, i, post, ei, hb, hpre, hsi, hei⟩ := hsplit
        refine Or.inr ⟨it :: pre, i, post, ei, by rw [hb]; rfl, ?_, hsi, hei⟩
        intro j hj
        rcases List.mem_cons.1 hj with rfl | hj
        · exact ⟨e, hs, heq⟩
        · exact hpre j hj

/-- A scan that returns `false` has changed neither the cache nor the frame. -/
theorem scanBucket_false (ops : PackedOps) (top : StackLevel) (cand : CachedComponent)
    (s : ComponentCache) :
    ∀ (bkt : List CacheEntryID) (top1 : StackLevel) (s1 : ComponentCache),
      scanBucket ops top cand bkt s = .ok (false, top1) s1 → top1 = top ∧ s1 = s := by
  intro bkt
  induction bkt with
  | nil =>
    intro top1 s1 h
    cases h
    exact ⟨rfl, rfl⟩
  | cons it rest ih =>
    intro top1 s1 h
    cases hs : s.slot it with
    | none =>
      rw [scanBucket_cons_fatal ops top cand s it rest hs] at h
      cases h
    | some e =>
      cases he : ops.equals e.base cand.base with
      | true =>
        rw [scanBucket_cons_eq ops top cand s it rest e hs he] at h
        cases h
      | false =>
        rw [scanBucket_cons_ne ops top cand s it rest e hs he] at h
        exact ih top1 s1 h

/-- With a non-empty table, `manageNewComponent` counts the look-up and then
scans the bucket found in the candidate's slot, if there is one. -/
theorem manageNewComponent_run (ops : PackedOps) (top : StackLevel) (cand : CachedComponent)
    (s : ComponentCache) (hne : s.table_ ≠ []) :
    manageNewComponent ops top cand s =
      match s.table_[s.bucketIndex ops cand]?.getD none with
      | some bkt => scanBucket ops top cand bkt s.countLookup
      | none => .ok (false, top) s.countLookup := by
  have hlen : s.table_.length ≠ 0 := by
    intro h; exact hne (List.length_eq_zero.1 h)
  have hb : bucketOf ops cand s.countLookup =
      .ok (s.table_[s.bucketIndex ops cand]?.getD none) s.countLookup := by
    simp [bucketOf, countLookup, bucketIndex, hne]
  unfold manageNewComponent
  simp only [run_getState_bind, run_setState_bind]
  rw [show ({ s with statistics_ := { s.statistics_ with
      num_cache_look_ups_ := s.statistics_.num_cache_look_ups_ + 1 } } : ComponentCache)
      = s.countLookup from rfl]
  rw [run_bind_ok _ hb]
  cases s.table_[s.bucketIndex ops cand]?.getD none <;> rfl

/-- With an empty table the bucket index is undefined. -/
theorem manageNewComponent_empty_table (ops : PackedOps) (top : StackLevel)
    (cand : CachedComponent) (s : ComponentCache) (he : s.table_ = []) :
    manageNewComponent ops top cand s = .undefined s.countLookup := by
  have hb : bucketOf ops cand s.countLookup = .undefined s.countLookup := by
    simp [bucketOf, countLookup, he]
  unfold manageNewComponent
  simp only [run_getState_bind, run_setState_bind]
  exact run_bind_undefined _ hb

/-! ## Facts about the concrete data -/

theorem fieldOps_equivalence : fieldOps.EqualsIsEquivalence := by
  refine ⟨?_, ?_, ?_⟩
  · intro a; simp [fieldOps]
  · intro a b h
    simp only [fieldOps, decide_eq_true_eq] at h ⊢
    exact h.symm
  · intro a b c h1 h2
    simp only [fieldOps, decide_eq_true_eq] at h1 h2 ⊢
    exact h1.trans h2

theorem collidingCache_noEqual : collidingCache.NoEqualLiveEntries fieldOps := by
  intro i j ei ej hi hj hij
  rcases i with _ | _ | _ | i <;> rcases j with _ | _ | _ | j <;>
    simp [slot, collidingCache] at hi hj <;>
    first
      | exact absurd rfl hij
      | (subst hi; subst hj; decide)

theorem collidingCache_live : ∀ i ∈ [1, 2], ∃ e, collidingCache.slot i = some e := by
  intro i hi
  simp only [List.mem_cons, List.mem_singleton, List.not_mem_nil, or_false] at hi
  rcases hi with rfl | rfl
  · exact ⟨entryA, rfl⟩
  · exact ⟨entryB, rfl⟩

theorem collidingCache_bucketIdsLive : collidingCache.BucketIdsLive := by
  intro bkt hb i hi
  simp only [collidingCache, List.mem_cons, List.mem_singleton, List.not_mem_nil,
    or_false, Option.some.injEq] at hb
  rcases hb with hb | hb
  · cases hb
  · subst hb
    exact collidingCache_live i hi

theorem duplicateCache_live : ∀ i ∈ [1] ++ 2 :: [3], ∃ e, duplicateCache.slot i = some e := by
  intro i hi
  simp only [List.singleton_append, List.mem_cons, List.mem_singleton, List.not_mem_nil,
    or_false] at hi
  rcases hi with rfl | rfl | rfl
  · exact ⟨entryA, rfl⟩
  · exact ⟨entryB, rfl⟩
  · exact ⟨entryB2, rfl⟩

/-! ## Lookup -/

/-- C1. Lookup correctness under dedup: with a non-empty table, every id of
the candidate's bucket live, no two distinct live entries equal (equals being
an equivalence), and a live entry `E` of that bucket equal to the candidate,
`manageNewComponent` returns `true` and the count it passes to
`top.includeSolution` is the model count of `E`, whatever else is in the
bucket. -/
theorem manageNewComponent_hit_under_dedup (ops : PackedOps) (top : StackLevel)
    (cand : CachedComponent) (s : ComponentCache) (bkt : CacheBucket)
    (E : CacheEntryID) (eE : CachedComponent)
    (hequiv : ops.EqualsIsEquivalence)
    (hne : s.table_ ≠ [])
    (hbkt : s.table_[s.bucketIndex ops cand]?.getD none = some bkt)
    (hlive : ∀ i ∈ bkt, ∃ e, s.slot i = some e)
    (hI4 : s.NoEqualLiveEntries ops)
    (hE : E ∈ bkt) (hsE : s.slot E = some eE)
    (heq : ops.equals eE.base cand.base = true) :
    manageNewComponent ops top cand s =
      .ok (true, top.includeSolution (ops.model_count eE.base))
        (s.countLookup.recordHit cand) := by
  obtain ⟨_, hsymm, htrans⟩ := hequiv
  rw [manageNewComponent_run ops top cand s hne, hbkt]
  have hlive1 : ∀ i ∈ bkt, ∃ e, s.countLookup.slot i = some e := hlive
  rcases bucket_split ops cand s.countLookup bkt hlive1 with hall | hsplit
  · obtain ⟨e, hs, hfalse⟩ := hall E hE
    rw [slot_countLookup, hsE] at hs
    cases hs
    rw [heq] at hfalse
    cases hfalse
  · obtain ⟨pre, i, post, e, hb, hpre, hsi, hei⟩ := hsplit
    have hsame : e = eE := by
      by_cases hiE : i = E
      · subst hiE
        rw [slot_countLookup, hsE] at hsi
        cases hsi
        rfl
      · have h1 : ops.equals e.base eE.base = true :=
          htrans _ _ _ hei (hsymm _ _ heq)
        have h2 := hI4 i E e eE (by simpa using hsi) hsE hiE
        rw [h1] at h2
        cases h2
    subst hsame
    show scanBucket ops top cand bkt s.countLookup = _
    rw [hb]
    exact scanBucket_hit ops top cand s.countLookup i post e hsi hei pre hpre

/-- C2. Hit/miss characterisation: with a non-empty table whose bucket ids are
all live, `manageNewComponent` returns, and it returns `true` exactly when the
slot `hashkey % table.size()` holds a bucket containing an id whose entry is
equal to the candidate. -/
theorem manageNewComponent_true_iff (ops : PackedOps) (top : StackLevel)
    (cand : CachedComponent) (s : ComponentCache)
    (hne : s.table_ ≠ []) (hlive : s.BucketIdsLive) :
    ∃ b top1 s1, manageNewComponent ops top cand s = .ok (b, top1) s1 ∧
      (b = true ↔
        ∃ bkt, s.table_[ops.hashkey cand.base % s.table_.length]?.getD none = some bkt ∧
          ∃ i ∈ bkt, ∃ e, s.slot i = some e ∧ ops.equals e.base cand.base = true) := by
  rw [manageNewComponent_run ops top cand s hne]
  show ∃ b top1 s1, _ ∧ (b = true ↔
    ∃ bkt, s.table_[s.bucketIndex ops cand]?.getD none = some bkt ∧ _)
  cases hb : s.table_[s.bucketIndex ops cand]?.getD none with
  | none => exact ⟨false, top, s.countLookup, rfl, by simp⟩
  | some bkt =>
    have hmem : some bkt ∈ s.table_ := by
      cases hg : s.table_[s.bucketIndex ops cand]? with
      | none => simp [hg] at hb
      | some x =>
        rw [hg] at hb
        simp only [Option.getD_some] at hb
        subst hb
        exact List.getElem?_mem hg
    have hl : ∀ i ∈ bkt, ∃ e, s.countLookup.slot i = some e := hlive bkt hmem
    rcases bucket_split ops cand s.countLookup bkt hl with hall | hsplit
    · refine ⟨false, top, s.countLookup, scanBucket_miss ops top cand s.countLookup bkt hall, ?_⟩
      constructor
      · intro h; cases h
      · rintro ⟨bkt1, hb1, i, hi, e, hs, he⟩
        cases hb1
        obtain ⟨e1, hs1, he1⟩ := hall i hi
        rw [slot_countLookup, hs] at hs1
        cases hs1
        rw [he] at he1
        cases he1
    · obtain ⟨pre, i, post, e, hbk, hpre, hsi, hei⟩ := hsplit
      refine ⟨true, top.includeSolution (ops.model_count e.base),
        s.countLookup.recordHit cand, ?_, ?_⟩
      · show scanBucket ops top cand bkt s.countLookup = _
        rw [hbk]
        exact scanBucket_hit ops top cand s.countLookup i post e hsi hei pre hpre
      · constructor
        · intro _
          exact ⟨bkt, rfl, i, by rw [hbk]; simp, e, hsi, hei⟩
        · intro _; rfl

/-- C3. Only the first exact match counts: when the candidate's bucket is
`pre ++ i :: post` with all ids live, no entry of `pre` equal to the candidate
and the entry of `i` equal to it, `manageNewComponent` returns `true`, makes
exactly one `includeSolution` call, with the model count of `i`, and records
exactly one hit; nothing of `post` is folded in. -/
theorem manageNewComponent_first_match (ops : PackedOps) (top : StackLevel)
    (cand : CachedComponent) (s : ComponentCache)
    (pre post : List CacheEntryID) (i : CacheEntryID) (e : CachedComponent)
    (hne : s.table_ ≠ [])
    (hbkt : s.table_[s.bucketIndex ops cand]?.getD none = some (pre ++ i :: post))
    (hlive : ∀ j ∈ pre ++ i :: post, ∃ ej, s.slot j = some ej)
    (hpre : ∀ j ∈ pre, ∀ ej, s.slot j = some ej → ops.equals ej.base cand.base = false)
    (hsi : s.slot i = some e) (hei : ops.equals e.base cand.base = true) :
    ∃ top1 s1, manageNewComponent ops top cand s = .ok (true, top1) s1 ∧
      top1.included = top.included ++ [ops.model_count e.base] ∧
      s1.statistics_.cache_hits = s.statistics_.cache_hits ++ [cand] ∧
      s1.statistics_.num_cache_look_ups_ = s.statistics_.num_cache_look_ups_ + 1 ∧
      s1.statistics_.cache_erases = s.statistics_.cache_erases ∧
      s1.entry_base_ = s.entry_base_ ∧
      s1.free_entry_base_slots_ = s.free_entry_base_slots_ ∧
      s1.table_ = s.table_ := by
  refine ⟨top.includeSolution (ops.model_count e.base), s.countLookup.recordHit cand,
    ?_, rfl, rfl, rfl, rfl, rfl, rfl, rfl⟩
  rw [manageNewComponent_run ops top cand s hne, hbkt]
  refine scanBucket_hit ops top cand s.countLookup i post e hsi hei pre ?_
  intro j hj
  obtain ⟨ej, hsj⟩ := hlive j (List.mem_append_left _ hj)
  exact ⟨ej, hsj, hpre j hj ej hsj⟩

/-- C4. A miss changes nothing: whenever `manageNewComponent` returns `false`
the frame `top` is as before (no `includeSolution` call) and the cache is the
old one with only the look-up counter increased by one (same table, arena,
free list and entries, no hit recorded); and a null bucket in the candidate's
slot of a non-empty table is such a case. -/
theorem manageNewComponent_miss_frame (ops : PackedOps) (top : StackLevel)
    (cand : CachedComponent) (s : ComponentCache) :
    (∀ top1 s1, manageNewComponent ops top cand s = .ok (false, top1) s1 →
      top1 = top ∧ s1 = s.countLookup) ∧
    (s.table_ ≠ [] → s.table_[s.bucketIndex ops cand]?.getD none = none →
      manageNewComponent ops top cand s = .ok (false, top) s.countLookup) := by
  constructor
  · intro top1 s1 h
    by_cases hne : s.table_ = []
    · rw [manageNewComponent_empty_table ops top cand s hne] at h
      cases h
    · rw [manageNewComponent_run ops top cand s hne] at h
      cases hb : s.table_[s.bucketIndex ops cand]?.getD none with
      | none =>
        rw [hb] at h
        cases h
        exact ⟨rfl, rfl⟩
      | some bkt =>
        rw [hb] at h
        exact scanBucket_false ops top cand s.countLookup bkt top1 s1 h
  · intro hne hb
    rw [manageNewComponent_run ops top cand s hne, hb]

/-! ## Lookup, evaluated -/

/-- Two colliding entries in one bucket: the lookup of the second resolves to
its own count 7, not to the count 5 stored before it. -/
theorem manageNewComponent_hit_under_dedup_witness :
    manageNewComponent fieldOps {} candidateB collidingCache =
      .ok (true, { included := [7] }) (collidingCache.countLookup.recordHit candidateB) :=
  manageNewComponent_hit_under_dedup fieldOps {} candidateB collidingCache [1, 2] 2 entryB
    fieldOps_equivalence (by decide) rfl collidingCache_live collidingCache_noEqual
    (by decide) rfl rfl

/-- On the colliding cache the characterisation applies to `candidateB`. -/
theorem manageNewComponent_true_iff_witness :
    ∃ b top1 s1, manageNewComponent fieldOps {} candidateB collidingCache = .ok (b, top1) s1 ∧
      (b = true ↔
        ∃ bkt, collidingCache.table_[fieldOps.hashkey candidateB.base %
            collidingCache.table_.length]?.getD none = some bkt ∧
          ∃ i ∈ bkt, ∃ e, collidingCache.slot i = some e ∧
            fieldOps.equals e.base candidateB.base = true) :=
  manageNewComponent_true_iff fieldOps {} candidateB collidingCache (by decide)
    collidingCache_bucketIdsLive

/-- With two entries equal to the candidate in the bucket, at positions 1 and
2, only the count 7 of the earlier one is folded in; the count 9 is not. -/
theorem manageNewComponent_first_match_witness :
    ∃ top1 s1, manageNewComponent fieldOps {} candidateB duplicateCache = .ok (true, top1) s1 ∧
      top1.included = [] ++ [7] ∧
      s1.statistics_.cache_hits = [] ++ [candidateB] ∧
      s1.statistics_.num_cache_look_ups_ = 0 + 1 ∧
      s1.statistics_.cache_erases = [] ∧
      s1.entry_base_ = duplicateCache.entry_base_ ∧
      s1.free_entry_base_slots_ = [] ∧
      s1.table_ = duplicateCache.table_ :=
  manageNewComponent_first_match fieldOps {} candidateB duplicateCache [1] [3] 2 entryB
    (by decide) rfl duplicateCache_live
    (by
      intro j hj ej hs
      simp only [List.mem_singleton] at hj
      subst hj
      cases hs
      decide)
    rfl rfl

/-- The candidate `candidateC` hashes to slot 0 of the colliding cache, which
holds no bucket: the lookup is a miss that only counts the look-up. -/
theorem manageNewComponent_miss_frame_witness :
    manageNewComponent fieldOps {} candidateC collidingCache =
        .ok (false, {}) collidingCache.countLookup ∧
      ∀ top1 s1, manageNewComponent fieldOps {} candidateC collidingCache =
        .ok (false, top1) s1 → top1 = {} ∧ s1 = collidingCache.countLookup :=
  ⟨(manageNewComponent_miss_frame fieldOps {} candidateC collidingCache).2 (by decide) rfl,
   (manageNewComponent_miss_frame fieldOps {} candidateC collidingCache).1⟩

/-! ## Erasing entries -/

/-- The state left by `eraseEntry id` when slot `id` holds `e`. -/
theorem eraseEntry_run (s : ComponentCache) (id : CacheEntryID) (e : CachedComponent)
    (hs : s.slot id = some e) :
    eraseEntry id s = .ok ()
      { s with
        statistics_ := s.statistics_.incorporate_cache_erase e
        entry_base_ := s.entry_base_.set id none
        free_entry_base_slots_ := s.free_entry_base_slots_ ++ [id] } := by
  have hlt := slot_lt_length hs
  simp [eraseEntry, hlt, hs]

/-- C5 (amended). The erase is unchecked: for every live entry with a nonzero
`component_stack_id`, `eraseEntry(id)` does not abort and frees the entry;
afterwards `hasEntry(id)` is false and `id` is at the end of the free list. -/
theorem eraseEntry_frees_anchored (s : ComponentCache) (id : CacheEntryID)
    (e : CachedComponent) (hs : s.slot id = some e) (hanch : e.component_stack_id ≠ 0) :
    ∃ s1, eraseEntry id s = .ok () s1 ∧ hasEntry id s1 = .ok false s1 ∧
      s1.free_entry_base_slots_ = s.free_entry_base_slots_ ++ [id] := by
  have _ := hanch
  have hlt := slot_lt_length hs
  refine ⟨_, eraseEntry_run s id e hs, ?_, rfl⟩
  simp [hasEntry, hlt, slot]

/-- C5, as stated, fails: entry 1 of `anchoredCache` is live with
`component_stack_id` 1, and `eraseEntry(1)` returns normally with the entry
freed: `hasEntry(1)` is then false and 1 has been added to the free list. -/
theorem eraseEntry_anchored_counterexample :
    anchoredCache.slot 1 = some entryAnchored ∧
    entryAnchored.component_stack_id = 1 ∧
    anchoredCache.free_entry_base_slots_ = [] ∧
    (eraseEntry 1 anchoredCache).isFatal = false ∧
    hasEntry 1 (eraseEntry 1 anchoredCache).state =
      .ok false (eraseEntry 1 anchoredCache).state ∧
    (eraseEntry 1 anchoredCache).state.free_entry_base_slots_ = [1] := by
  refine ⟨rfl, rfl, rfl, rfl, rfl, rfl⟩

/-- At entry 1 of `anchoredCache`, anchored at stack position 1. -/
theorem eraseEntry_frees_anchored_witness :
    ∃ s1, eraseEntry 1 anchoredCache = .ok () s1 ∧ hasEntry 1 s1 = .ok false s1 ∧
      s1.free_entry_base_slots_ = [] ++ [1] :=
  eraseEntry_frees_anchored anchoredCache 1 entryAnchored rfl (by decide)

/-- C6. Postcondition of `eraseEntry` on a live id: the call returns, the slot
is empty (`hasEntry` false, `entry` fatal), the free list is the old one with
`id` appended, the arena has the same length, every other slot is as before,
and the hash table is unchanged. -/
theorem eraseEntry_post (s : ComponentCache) (id : CacheEntryID) (e : CachedComponent)
    (hlt : id < s.entry_base_.length) (hs : s.slot id = some e) :
    ∃ s1, eraseEntry id s = .ok () s1 ∧
      s1.entry_base_[id]? = some none ∧
      hasEntry id s1 = .ok false s1 ∧
      entry id s1 = .fatal s1 ∧
      s1.free_entry_base_slots_ = s.free_entry_base_slots_ ++ [id] ∧
      s1.entry_base_.length = s.entry_base_.length ∧
      (∀ j, j ≠ id → s1.entry_base_[j]? = s.entry_base_[j]?) ∧
      s1.table_ = s.table_ := by
  refine ⟨_, eraseEntry_run s id e hs, ?_, ?_, ?_, rfl, ?_, ?_, rfl⟩
  · simp [hlt]
  · simp [hasEntry, hlt, slot]
  · exact entry_of_slot_none (by simp [slot, hlt])
  · simp
  · intro j hj
    simp [List.getElem?_set_ne (Ne.symm hj)]

/-- Erasing entry 2 of the colliding cache. -/
theorem eraseEntry_post_witness :
    ∃ s1, eraseEntry 2 collidingCache = .ok () s1 ∧
      s1.entry_base_[2]? = some none ∧
      hasEntry 2 s1 = .ok false s1 ∧
      entry 2 s1 = .fatal s1 ∧
      s1.free_entry_base_slots_ = [] ++ [2] ∧
      s1.entry_base_.length = 3 ∧
      (∀ j, j ≠ 2 → s1.entry_base_[j]? = collidingCache.entry_base_[j]?) ∧
      s1.table_ = collidingCache.table_ :=
  eraseEntry_post collidingCache 2 entryB (by decide) rfl

/-! ## Entries -/

/-- C7. The method `clear()` aborts exactly on anchored entries: it ends in a
failed assertion iff `component_stack_id != 0`, and then the entry is as
before; when `component_stack_id == 0` it returns with the payload pointer
null and the stack id and the three tree links unchanged. -/
theorem clear_fatal_iff_anchored (e : CachedComponent) :
    ((CachedComponent.clear e).isFatal = true ↔ e.component_stack_id ≠ 0) ∧
    (e.component_stack_id ≠ 0 → CachedComponent.clear e = .fatal e) ∧
    (e.component_stack_id = 0 →
      ∃ e1, CachedComponent.clear e = .ok () e1 ∧
        e1.base.data_ = none ∧
        e1.component_stack_id = e.component_stack_id ∧
        e1.father = e.father ∧
        e1.first_descendant = e.first_descendant ∧
        e1.next_sibling = e.next_sibling ∧
        e1.base.hashkey_ = e.base.hashkey_ ∧
        e1.base.model_count_ = e.base.model_count_) := by
  by_cases h : e.component_stack_id_ = 0
  · refine ⟨?_, ?_, ?_⟩
    · simp [CachedComponent.clear, CachedComponent.component_stack_id, h, Outcome.isFatal]
    · intro hn; exact absurd h hn
    · intro _
      refine ⟨{ e with base := { e.base with data_ := none } }, ?_, rfl, rfl, rfl, rfl, rfl,
        rfl, rfl⟩
      simp [CachedComponent.clear, h]
  · have hf : CachedComponent.clear e = .fatal e := by
      simp [CachedComponent.clear, h]
    refine ⟨?_, fun _ => hf, fun h0 => absurd h0 h⟩
    rw [hf]
    simp [Outcome.isFatal, CachedComponent.component_stack_id, h]

/-- Clearing the anchored entry aborts and leaves it as it was; clearing
`entryA` succeeds. -/
theorem clear_fatal_iff_anchored_witness :
    CachedComponent.clear entryAnchored = .fatal entryAnchored ∧
    ∃ e1, CachedComponent.clear entryA = .ok () e1 ∧
        e1.base.data_ = none ∧
        e1.component_stack_id = entryA.component_stack_id ∧
        e1.father = entryA.father ∧
        e1.first_descendant = entryA.first_descendant ∧
        e1.next_sibling = entryA.next_sibling ∧
        e1.base.hashkey_ = entryA.base.hashkey_ ∧
        e1.base.model_count_ = entryA.base.model_count_ :=
  ⟨(clear_fatal_iff_anchored entryAnchored).2.1 (by decide),
   (clear_fatal_iff_anchored entryA).2.2 rfl⟩

/-- C8. Stale or out-of-range ids are fatal: `entry(id)` returns the stored
entry when `id` is inside the arena and the slot is non-null, and is a failed
assertion otherwise; `hasEntry(id)` is a failed assertion exactly when `id` is
outside the arena and otherwise tells whether the slot is non-null; neither
changes the cache. -/
theorem entry_hasEntry_spec (s : ComponentCache) (id : CacheEntryID) :
    ((∃ e, entry id s = .ok e s) ↔
      (id < s.entry_base_.length ∧ s.entry_base_[id]? ≠ some none)) ∧
    (∀ e, entry id s = .ok e s ↔ s.entry_base_[id]? = some (some e)) ∧
    ((entry id s).isFatal = true ↔
      ¬ (id < s.entry_base_.length ∧ s.entry_base_[id]? ≠ some none)) ∧
    (entry id s).state = s ∧
    ((hasEntry id s).isFatal = true ↔ s.entry_base_.length ≤ id) ∧
    (id < s.entry_base_.length →
      hasEntry id s = .ok (decide (s.entry_base_[id]? ≠ some none)) s) ∧
    (hasEntry id s).state = s := by
  by_cases hlt : id < s.entry_base_.length
  · have hget : s.entry_base_[id]? = some s.entry_base_[id] := List.getElem?_eq_getElem hlt
    cases hv : s.entry_base_[id] with
    | none =>
      have hslot : s.slot id = none := by simp [slot, hget, hv]
      have he : entry id s = .fatal s := entry_of_slot_none hslot
      have hh : hasEntry id s = .ok false s := by simp [hasEntry, hlt, hslot]
      rw [he, hh, hget, hv]
      simp [Outcome.isFatal, Outcome.state, hlt]
    | some e0 =>
      have hslot : s.slot id = some e0 := by simp [slot, hget, hv]
      have he : entry id s = .ok e0 s := entry_of_slot hslot
      have hh : hasEntry id s = .ok true s := by simp [hasEntry, hlt, hslot]
      rw [he, hh, hget, hv]
      simp [Outcome.isFatal, Outcome.state, hlt]
  · have he : entry id s = .fatal s := entry_of_not_lt hlt
    have hh : hasEntry id s = .fatal s := by simp [hasEntry, hlt]
    have hget : s.entry_base_[id]? = none := List.getElem?_eq_none (Nat.le_of_not_lt hlt)
    rw [he, hh, hget]
    simp [Outcome.isFatal, Outcome.state, hlt, Nat.le_of_not_lt hlt]

/-- On the colliding cache, `hasEntry(0)` sees the null slot 0. -/
theorem entry_hasEntry_spec_witness :
    hasEntry 0 collidingCache = .ok false collidingCache :=
  (entry_hasEntry_spec collidingCache 0).2.2.2.2.2.1 (by decide)

/-- C9. The method `deletable()` is true iff `component_stack_id == 0`; after
`setComponentStackID(n)` the entry is deletable iff `n == 0` and
`component_stack_id()` returns `n`; after `eraseComponentStackID()` it is
deletable; and the two setters leave `father`, `first_descendant`,
`next_sibling` and the packed payload as they were. -/
theorem deletable_iff_stack_id_zero (e : CachedComponent) (n : Nat) :
    (e.deletable = true ↔ e.component_stack_id = 0) ∧
    ((e.setComponentStackID n).deletable = true ↔ n = 0) ∧
    (e.setComponentStackID n).component_stack_id = n ∧
    e.eraseComponentStackID.deletable = true ∧
    e.eraseComponentStackID.component_stack_id = 0 ∧
    ((e.setComponentStackID n).father = e.father ∧
      (e.setComponentStackID n).first_descendant = e.first_descendant ∧
      (e.setComponentStackID n).next_sibling = e.next_sibling ∧
      (e.setComponentStackID n).base = e.base) ∧
    (e.eraseComponentStackID.father = e.father ∧
      e.eraseComponentStackID.first_descendant = e.first_descendant ∧
      e.eraseComponentStackID.next_sibling = e.next_sibling ∧
      e.eraseComponentStackID.base = e.base) := by
  refine ⟨?_, ?_, rfl, rfl, rfl, ⟨rfl, rfl, rfl, rfl⟩, ⟨rfl, rfl, rfl, rfl⟩⟩
  · simp [CachedComponent.deletable, CachedComponent.component_stack_id]
  · simp [CachedComponent.deletable, CachedComponent.setComponentStackID]

/-! ## Linking a child -/

theorem run_storeEntry_bind {β : Type} (id : CacheEntryID) (e : CachedComponent)
    (f : Unit → Op ComponentCache β) (s : ComponentCache) :
    (storeEntry id e >>= f) s = f () (s.setSlot id e) := rfl

theorem run_storeEntry (id : CacheEntryID) (e : CachedComponent) (s : ComponentCache) :
    storeEntry id e s = .ok () (s.setSlot id e) := rfl

theorem slot_setSlot_self (s : ComponentCache) (id : CacheEntryID) (e : CachedComponent)
    (h : id < s.entry_base_.length) : (s.setSlot id e).slot id = some e := by
  simp [slot, setSlot, h]

theorem slot_setSlot_ne (s : ComponentCache) (id j : CacheEntryID) (e : CachedComponent)
    (h : j ≠ id) : (s.setSlot id e).slot j = s.slot j := by
  simp [slot, setSlot, List.getElem?_set_ne (Ne.symm h)]

theorem length_setSlot (s : ComponentCache) (id : CacheEntryID) (e : CachedComponent) :
    (s.setSlot id e).entry_base_.length = s.entry_base_.length := by
  simp [setSlot]

/-- The run of `add_descendant` on live ids that pass the assertion: two
writes, the second on the entry of `compid` as the first write left it. -/
theorem add_descendant_run (s : ComponentCache) (compid descendantid : CacheEntryID)
    (c d c2 : CachedComponent)
    (hc : s.slot compid = some c) (hd : s.slot descendantid = some d)
    (hne : descendantid ≠ c.first_descendant)
    (hc2 : (s.setSlot descendantid (d.set_next_sibling c.first_descendant)).slot compid =
      some c2) :
    add_descendant compid descendantid s = .ok ()
      ((s.setSlot descendantid (d.set_next_sibling c.first_descendant)).setSlot compid
        (c2.set_first_descendant descendantid)) := by
  unfold add_descendant
  rw [run_bind_ok _ (entry_of_slot hc)]
  simp only [run_assert_bind, bne_iff_ne, ne_eq, hne, not_false_eq_true, decide_True, if_true]
  rw [run_bind_ok _ (entry_of_slot hd), run_bind_ok _ (entry_of_slot hc), run_storeEntry_bind]
  exact run_bind_ok _ (entry_of_slot hc2)

/-- C10 (amended). Linking a new child: for live ids `compid`, `descendantid`
with `descendantid != first_descendant(compid)`, `add_descendant` returns;
afterwards `compid` has `first_descendant == descendantid` and `descendantid`
has as `next_sibling` the old `first_descendant(compid)`; in every entry the
payload, the stack id and `father` are unchanged, `first_descendant` is
unchanged except in `compid`, and `next_sibling` is unchanged except in
`descendantid`; arena length, empty slots, free list, table and statistics
are unchanged. -/
theorem add_descendant_links (s : ComponentCache) (compid descendantid : CacheEntryID)
    (c d : CachedComponent)
    (hc : s.slot compid = some c) (hd : s.slot descendantid = some d)
    (hne : descendantid ≠ c.first_descendant) :
    ∃ s1, add_descendant compid descendantid s = .ok () s1 ∧
      (∃ c1, s1.slot compid = some c1 ∧ c1.first_descendant = descendantid) ∧
      (∃ d1, s1.slot descendantid = some d1 ∧ d1.next_sibling = c.first_descendant) ∧
      (∀ x ex, s.slot x = some ex → ∃ ex1, s1.slot x = some ex1 ∧
        ex1.base = ex.base ∧
        ex1.component_stack_id = ex.component_stack_id ∧
        ex1.father = ex.father ∧
        (x ≠ compid → ex1.first_descendant = ex.first_descendant) ∧
        (x ≠ descendantid → ex1.next_sibling = ex.next_sibling)) ∧
      s1.entry_base_.length = s.entry_base_.length ∧
      (∀ x, s.slot x = none → s1.slot x = none) ∧
      s1.free_entry_base_slots_ = s.free_entry_base_slots_ ∧
      s1.table_ = s.table_ ∧
      s1.statistics_ = s.statistics_ := by
  have hclt := slot_lt_length hc
  have hdlt := slot_lt_length hd
  -- the entry of `compid` after the first write
  obtain ⟨c2, hc2, hc2base, hc2sid, hc2fa, hc2ns⟩ :
      ∃ c2, (s.setSlot descendantid (d.set_next_sibling c.first_descendant)).slot compid =
          some c2 ∧ c2.base = c.base ∧ c2.component_stack_id = c.component_stack_id ∧
          c2.father = c.father ∧
          (compid ≠ descendantid → c2.next_sibling = c.next_sibling) := by
    by_cases hcd : compid = descendantid
    · subst hcd
      rw [hc] at hd
      cases hd
      exact ⟨_, slot_setSlot_self s compid _ hclt, rfl, rfl, rfl, fun h => absurd rfl h⟩
    · exact ⟨c, by rw [slot_setSlot_ne s descendantid compid _ hcd]; exact hc, rfl, rfl, rfl,
        fun _ => rfl⟩
  have hlen1 : compid < (s.setSlot descendantid
      (d.set_next_sibling c.first_descendant)).entry_base_.length := by
    rw [length_setSlot]; exact hclt
  refine ⟨_, add_descendant_run s compid descendantid c d c2 hc hd hne hc2, ?_, ?_, ?_, ?_, ?_,
    rfl, rfl, rfl⟩
  · exact ⟨_, slot_setSlot_self _ compid _ hlen1, rfl⟩
  · by_cases hcd : descendantid = compid
    · subst hcd
      refine ⟨_, slot_setSlot_self _ descendantid _ hlen1, ?_⟩
      rw [slot_setSlot_self s descendantid _ hdlt] at hc2
      cases hc2
      rfl
    · refine ⟨d.set_next_sibling c.first_descendant, ?_, rfl⟩
      rw [slot_setSlot_ne _ compid descendantid _ hcd]
      exact slot_setSlot_self s descendantid _ hdlt
  · intro x ex hx
    by_cases hxc : x = compid
    · subst hxc
      rw [hc] at hx
      cases hx
      refine ⟨_, slot_setSlot_self _ x _ hlen1, ?_, ?_, ?_, fun h => absurd rfl h, ?_⟩
      · exact hc2base
      · exact hc2sid
      · exact hc2fa
      · exact hc2ns
    · rw [slot_setSlot_ne _ compid x _ hxc]
      by_cases hxd : x = descendantid
      · subst hxd
        rw [hd] at hx
        cases hx
        exact ⟨_, slot_setSlot_self s x _ hdlt, rfl, rfl, rfl, fun _ => rfl,
          fun h => absurd rfl h⟩
      · rw [slot_setSlot_ne s descendantid x _ hxd]
        exact ⟨ex, hx, rfl, rfl, rfl, fun _ => rfl, fun _ => rfl⟩
  · simp [setSlot]
  · intro x hx
    have hxc : x ≠ compid := by
      rintro rfl
      rw [hc] at hx
      cases hx
    have hxd : x ≠ descendantid := by
      rintro rfl
      rw [hd] at hx
      cases hx
    rw [slot_setSlot_ne _ compid x _ hxc, slot_setSlot_ne s descendantid x _ hxd]
    exact hx

/-- C10, as stated, fails when `descendantid == compid`: entry 1 of
`singletonCache` is live with `first_descendant` 0, so 1 passes the assertion;
`add_descendant(1, 1)` returns and the `first_descendant` of `descendantid`
itself has changed from 0 to 1. -/
theorem add_descendant_self_counterexample :
    singletonCache.slot 1 = some entryA ∧
    entryA.first_descendant = 0 ∧
    (add_descendant 1 1 singletonCache).isFatal = false ∧
    (add_descendant 1 1 singletonCache).state.slot 1 =
      some { entryA with first_descendant_ := 1, next_sibling_ := 0 } := by
  refine ⟨rfl, rfl, rfl, rfl⟩

/-- Linking entry 2 of the colliding cache under entry 1. -/
theorem add_descendant_links_witness :
    ∃ s1, add_descendant 1 2 collidingCache = .ok () s1 ∧
      (∃ c1, s1.slot 1 = some c1 ∧ c1.first_descendant = 2) ∧
      (∃ d1, s1.slot 2 = some d1 ∧ d1.next_sibling = entryA.first_descendant) ∧
      (∀ x ex, collidingCache.slot x = some ex → ∃ ex1, s1.slot x = some ex1 ∧
        ex1.base = ex.base ∧
        ex1.component_stack_id = ex.component_stack_id ∧
        ex1.father = ex.father ∧
        (x ≠ 1 → ex1.first_descendant = ex.first_descendant) ∧
        (x ≠ 2 → ex1.next_sibling = ex.next_sibling)) ∧
      s1.entry_base_.length = collidingCache.entry_base_.length ∧
      (∀ x, collidingCache.slot x = none → s1.slot x = none) ∧
      s1.free_entry_base_slots_ = collidingCache.free_entry_base_slots_ ∧
      s1.table_ = collidingCache.table_ ∧
      s1.statistics_ = collidingCache.statistics_ :=
  add_descendant_links collidingCache 1 2 entryA entryB rfl rfl (by decide)

/-! ## Footprint and construction of entries -/

theorem SizeInBytes_eq_mod (sz : SizeOps) (e : CachedComponent) :
    e.SizeInBytes sz = e.footprintSum sz % 2 ^ sz.ulong_bits := by
  unfold CachedComponent.SizeInBytes CachedComponent.footprintSum
  rw [Nat.add_mod_mod, Nat.mod_add_mod]

theorem SizeInBytes_of_fits (sz : SizeOps) (e : CachedComponent)
    (h : e.footprintSum sz < 2 ^ sz.ulong_bits) :
    e.SizeInBytes sz = e.footprintSum sz := by
  rw [SizeInBytes_eq_mod, Nat.mod_eq_of_lt h]

/-- C11 (amended). Entry footprint: `SizeInBytes()` is the sum of the fixed
overhead, `data_size() * sizeof(unsigned)` and `size_of_model_count()`
computed in `unsigned long`, that is modulo `2 ^ ulong_bits`, and does not
depend on the stack id or the three links; when the sum does not overflow
(it is representable in `unsigned long`) `SizeInBytes()` equals that sum, is
at least the fixed overhead, and is monotone in `data_size()` and
`size_of_model_count()` among entries whose sums do not overflow. -/
theorem SizeInBytes_footprint (sz : SizeOps) (e : CachedComponent) :
    e.SizeInBytes sz = e.footprintSum sz % 2 ^ sz.ulong_bits ∧
    (∀ sid fa fd ns : Nat,
      CachedComponent.SizeInBytes sz
        { e with component_stack_id_ := sid, father_ := fa, first_descendant_ := fd,
                 next_sibling_ := ns } = e.SizeInBytes sz) ∧
    (e.footprintSum sz < 2 ^ sz.ulong_bits →
      e.SizeInBytes sz =
        sz.sizeof_entry + sz.data_size e.base * sz.sizeof_unsigned +
          sz.size_of_model_count e.base ∧
      sz.sizeof_entry ≤ e.SizeInBytes sz ∧
      ∀ e2 : CachedComponent, e2.footprintSum sz < 2 ^ sz.ulong_bits →
        sz.data_size e.base ≤ sz.data_size e2.base →
        sz.size_of_model_count e.base ≤ sz.size_of_model_count e2.base →
        e.SizeInBytes sz ≤ e2.SizeInBytes sz) := by
  refine ⟨SizeInBytes_eq_mod sz e, fun _ _ _ _ => rfl, ?_⟩
  intro hfit
  refine ⟨SizeInBytes_of_fits sz e hfit, ?_, ?_⟩
  · rw [SizeInBytes_of_fits sz e hfit]
    unfold CachedComponent.footprintSum
    omega
  · intro e2 hfit2 hd hm
    rw [SizeInBytes_of_fits sz e hfit, SizeInBytes_of_fits sz e2 hfit2]
    unfold CachedComponent.footprintSum
    have := Nat.mul_le_mul_right sz.sizeof_unsigned hd
    omega

/-- The footprint of `entryA` with the concrete sizes: 48 + 1 * 4 + 16 bytes. -/
theorem SizeInBytes_footprint_witness :
    entryA.SizeInBytes exampleSizes = 48 + 1 * 4 + 16 ∧
    48 ≤ entryA.SizeInBytes exampleSizes ∧
    ∀ e2 : CachedComponent, e2.footprintSum exampleSizes < 2 ^ 64 →
      exampleSizes.data_size entryA.base ≤ exampleSizes.data_size e2.base →
      exampleSizes.size_of_model_count entryA.base ≤
        exampleSizes.size_of_model_count e2.base →
      entryA.SizeInBytes exampleSizes ≤ e2.SizeInBytes exampleSizes :=
  (SizeInBytes_footprint exampleSizes entryA).2.2 (by decide)

/-- C11, as stated, fails when the `unsigned long` sum wraps: with `wrapSizes`
the exact sum for `entryA` is `24 + 1 * 4 + (2 ^ 64 - 28) = 2 ^ 64`, so
`SizeInBytes()` returns 0, which is neither that sum nor at least the fixed
overhead 24; and `dummyEntry`, with a smaller `data_size()` and the same
`size_of_model_count()`, has the larger `SizeInBytes()` `2 ^ 64 - 4`. -/
theorem SizeInBytes_wrap_counterexample :
    entryA.footprintSum wrapSizes = 2 ^ 64 ∧
    entryA.SizeInBytes wrapSizes = 0 ∧
    entryA.SizeInBytes wrapSizes ≠ entryA.footprintSum wrapSizes ∧
    ¬ wrapSizes.sizeof_entry ≤ entryA.SizeInBytes wrapSizes ∧
    wrapSizes.data_size dummyEntry.base ≤ wrapSizes.data_size entryA.base ∧
    wrapSizes.size_of_model_count dummyEntry.base =
      wrapSizes.size_of_model_count entryA.base ∧
    dummyEntry.SizeInBytes wrapSizes = 2 ^ 64 - 4 ∧
    ¬ dummyEntry.SizeInBytes wrapSizes ≤ entryA.SizeInBytes wrapSizes := by
  have hsum : entryA.footprintSum wrapSizes = 2 ^ 64 := by decide
  have hA : entryA.SizeInBytes wrapSizes = 0 := by
    rw [SizeInBytes_eq_mod, hsum]
    exact Nat.mod_self _
  have hD : dummyEntry.SizeInBytes wrapSizes = 2 ^ 64 - 4 := by
    rw [SizeInBytes_eq_mod]
    decide
  refine ⟨hsum, hA, ?_, ?_, by decide, rfl, hD, ?_⟩
  · rw [hA, hsum]
    decide
  · rw [hA]
    decide
  · rw [hA, hD]
    decide

/-- C18. Fresh entries are isolated tree nodes: a default-constructed entry
has `component_stack_id == 0`, is deletable, and has `father`,
`first_descendant` and `next_sibling` equal to `NIL_ENTRY`; an entry
constructed from a component and `sid` has `component_stack_id() == sid`, is
deletable iff `sid == 0`, and has the same three links `NIL_ENTRY`. -/
theorem fresh_entry_isolated (b packed : SimplePackedComponent) (sid : Nat) :
    ((CachedComponent.construct b).component_stack_id = 0 ∧
      (CachedComponent.construct b).deletable = true ∧
      (CachedComponent.construct b).father = NIL_ENTRY ∧
      (CachedComponent.construct b).first_descendant = NIL_ENTRY ∧
      (CachedComponent.construct b).next_sibling = NIL_ENTRY) ∧
    ((CachedComponent.constructFrom packed sid).component_stack_id = sid ∧
      ((CachedComponent.constructFrom packed sid).deletable = true ↔ sid = 0) ∧
      (CachedComponent.constructFrom packed sid).father = NIL_ENTRY ∧
      (CachedComponent.constructFrom packed sid).first_descendant = NIL_ENTRY ∧
      (CachedComponent.constructFrom packed sid).next_sibling = NIL_ENTRY) := by
  refine ⟨⟨rfl, rfl, rfl, rfl, rfl⟩, ⟨rfl, ?_, rfl, rfl, rfl⟩⟩
  simp [CachedComponent.deletable, CachedComponent.constructFrom]

/-! ## Lookup safety -/

/-- With a non-empty table and a candidate's bucket of live ids the lookup
returns normally. -/
theorem manageNewComponent_returns (ops : PackedOps) (top : StackLevel)
    (cand : CachedComponent) (s : ComponentCache) (hne : s.table_ ≠ [])
    (hl : ∀ bkt, s.table_[s.bucketIndex ops cand]?.getD none = some bkt →
      ∀ i ∈ bkt, ∃ e, s.slot i = some e) :
    ∃ b top1 s1, manageNewComponent ops top cand s = .ok (b, top1) s1 := by
  rw [manageNewComponent_run ops top cand s hne]
  cases hb : s.table_[s.bucketIndex ops cand]?.getD none with
  | none => exact ⟨false, top, s.countLookup, rfl⟩
  | some bkt =>
    have hl1 : ∀ i ∈ bkt, ∃ e, s.countLookup.slot i = some e := hl bkt hb
    rcases bucket_split ops cand s.countLookup bkt hl1 with hall | hsplit
    · exact ⟨false, top, s.countLookup, scanBucket_miss ops top cand s.countLookup bkt hall⟩
    · obtain ⟨pre, i, post, e, hbk, hpre, hsi, hei⟩ := hsplit
      refine ⟨true, top.includeSolution (ops.model_count e.base),
        s.countLookup.recordHit cand, ?_⟩
      show scanBucket ops top cand bkt s.countLookup = _
      rw [hbk]
      exact scanBucket_hit ops top cand s.countLookup i post e hsi hei pre hpre

/-- C12. Lookup never trips an assertion when the two indexes agree: with a
non-empty table in which every id of every allocated bucket is a live entry,
`manageNewComponent` returns normally for every candidate; the bucket index is
inside the table and every `entry(*it)` of the candidate's bucket succeeds. -/
theorem manageNewComponent_no_failure (ops : PackedOps) (top : StackLevel)
    (cand : CachedComponent) (s : ComponentCache)
    (hne : s.table_ ≠ []) (hlive : s.BucketIdsLive) :
    (∃ b top1 s1, manageNewComponent ops top cand s = .ok (b, top1) s1) ∧
    (manageNewComponent ops top cand s).isFatal = false ∧
    ops.hashkey cand.base % s.table_.length < s.table_.length ∧
    (∀ bkt, s.table_[ops.hashkey cand.base % s.table_.length]? = some (some bkt) →
      ∀ it ∈ bkt, ∃ e, entry it s.countLookup = .ok e s.countLookup ∧
        entry it (s.countLookup.recordHit cand) = .ok e (s.countLookup.recordHit cand)) := by
  have hl : ∀ bkt, s.table_[s.bucketIndex ops cand]?.getD none = some bkt →
      ∀ i ∈ bkt, ∃ e, s.slot i = some e := by
    intro bkt hb
    cases hg : s.table_[s.bucketIndex ops cand]? with
    | none => simp [hg] at hb
    | some x =>
      rw [hg] at hb
      simp only [Option.getD_some] at hb
      subst hb
      exact hlive bkt (List.getElem?_mem hg)
  obtain ⟨b, top1, s1, hrun⟩ := manageNewComponent_returns ops top cand s hne hl
  refine ⟨⟨b, top1, s1, hrun⟩, by rw [hrun]; rfl, ?_, ?_⟩
  · exact Nat.mod_lt _ (List.length_pos.2 hne)
  · intro bkt hb it hit
    obtain ⟨e, he⟩ := hlive bkt (List.getElem?_mem hb) it hit
    exact ⟨e, entry_of_slot (by simpa using he), entry_of_slot (by simpa using he)⟩

/-- On the colliding cache the lookup of `candidateB` returns normally. -/
theorem manageNewComponent_no_failure_witness :
    (∃ b top1 s1, manageNewComponent fieldOps {} candidateB collidingCache = .ok (b, top1) s1) ∧
    (manageNewComponent fieldOps {} candidateB collidingCache).isFatal = false ∧
    fieldOps.hashkey candidateB.base % collidingCache.table_.length <
      collidingCache.table_.length ∧
    (∀ bkt, collidingCache.table_[fieldOps.hashkey candidateB.base %
        collidingCache.table_.length]? = some (some bkt) →
      ∀ it ∈ bkt, ∃ e, entry it collidingCache.countLookup =
          .ok e collidingCache.countLookup ∧
        entry it (collidingCache.countLookup.recordHit candidateB) =
          .ok e (collidingCache.countLookup.recordHit candidateB)) :=
  manageNewComponent_no_failure fieldOps {} candidateB collidingCache (by decide)
    collidingCache_bucketIdsLive

/-! ## The free list -/

/-- C15. Free-list invariant under `eraseEntry`: from a state in which every
free id is inside the arena with a null slot and occurs once, erasing a live
id returns to such a state, and the live ids afterwards are the old ones
without `id`. -/
theorem eraseEntry_preserves_freeListInv (s : ComponentCache) (id : CacheEntryID)
    (e : CachedComponent) (hinv : s.FreeListInv)
    (hlt : id < s.entry_base_.length) (hs : s.slot id = some e) :
    ∃ s1, eraseEntry id s = .ok () s1 ∧ s1.FreeListInv ∧
      ∀ j, (∃ ej, s1.slot j = some ej) ↔ ((∃ ej, s.slot j = some ej) ∧ j ≠ id) := by
  obtain ⟨hfree, hnodup⟩ := hinv
  have hnotin : id ∉ s.free_entry_base_slots_ := by
    intro hmem
    have h1 := (hfree id hmem).2
    simp [slot, h1] at hs
  refine ⟨_, eraseEntry_run s id e hs, ⟨?_, ?_⟩, ?_⟩
  · intro i hi
    simp only [List.mem_append, List.mem_singleton] at hi
    simp only [List.length_set]
    by_cases hid : i = id
    · subst hid
      exact ⟨hlt, by simp [hlt]⟩
    · rcases hi with hi | hi
      · refine ⟨(hfree i hi).1, ?_⟩
        rw [List.getElem?_set_ne (Ne.symm hid)]
        exact (hfree i hi).2
      · exact absurd hi hid
  · show (s.free_entry_base_slots_ ++ [id]).Nodup
    rw [List.nodup_append]
    refine ⟨hnodup, List.nodup_singleton _, ?_⟩
    intro x hx hx1
    simp only [List.mem_singleton] at hx1
    subst hx1
    exact hnotin hx
  · intro j
    by_cases hj : j = id
    · subst hj
      simp [slot, hlt]
    · simp [slot, List.getElem?_set_ne (Ne.symm hj), hj]

/-- Erasing entry 2 of the colliding cache, whose free list is empty. -/
theorem eraseEntry_preserves_freeListInv_witness :
    ∃ s1, eraseEntry 2 collidingCache = .ok () s1 ∧ s1.FreeListInv ∧
      ∀ j, (∃ ej, s1.slot j = some ej) ↔ ((∃ ej, collidingCache.slot j = some ej) ∧ j ≠ 2) :=
  eraseEntry_preserves_freeListInv collidingCache 2 entryB
    ⟨fun i hi => (by cases hi), List.nodup_nil⟩ (by decide) rfl

/-! ## Failures of `add_descendant` -/

/-- The entry of `compid` is still there after the first write of
`add_descendant`. -/
theorem slot_after_sibling_write (s : ComponentCache) (compid descendantid : CacheEntryID)
    (c d : CachedComponent) (sibling : CacheEntryID)
    (hc : s.slot compid = some c) (hd : s.slot descendantid = some d) :
    ∃ c2, (s.setSlot descendantid (d.set_next_sibling sibling)).slot compid = some c2 ∧
      c2.first_descendant = c.first_descendant := by
  by_cases hcd : compid = descendantid
  · subst hcd
    rw [hc] at hd
    cases hd
    exact ⟨_, slot_setSlot_self s compid _ (slot_lt_length hc), rfl⟩
  · exact ⟨c, by rw [slot_setSlot_ne s descendantid compid _ hcd]; exact hc, rfl⟩

/-- C16. The method `add_descendant` ends in a failed assertion iff `compid`
is not a live entry, or `descendantid == first_descendant(compid)`, or
`descendantid` is not a live entry; and whenever it fails the cache is as it
was before the call: no entry field has been written. -/
theorem add_descendant_fatal_iff (s : ComponentCache) (compid descendantid : CacheEntryID) :
    ((add_descendant compid descendantid s).isFatal = true ↔
      (s.slot compid = none ∨
        (∃ c, s.slot compid = some c ∧ descendantid = c.first_descendant) ∨
        s.slot descendantid = none)) ∧
    ((add_descendant compid descendantid s).isFatal = true →
      add_descendant compid descendantid s = .fatal s) := by
  cases hc : s.slot compid with
  | none =>
    have hrun : add_descendant compid descendantid s = .fatal s := by
      unfold add_descendant
      exact run_bind_fatal _ (entry_of_slot_none hc)
    rw [hrun]
    exact ⟨⟨fun _ => Or.inl rfl, fun _ => rfl⟩, fun _ => rfl⟩
  | some c =>
    by_cases hfd : descendantid = c.first_descendant
    · have hrun : add_descendant compid descendantid s = .fatal s := by
        unfold add_descendant
        rw [run_bind_ok _ (entry_of_slot hc)]
        simp [hfd]
      rw [hrun]
      exact ⟨⟨fun _ => Or.inr (Or.inl ⟨c, rfl, hfd⟩), fun _ => rfl⟩, fun _ => rfl⟩
    · cases hd : s.slot descendantid with
      | none =>
        have hrun : add_descendant compid descendantid s = .fatal s := by
          unfold add_descendant
          rw [run_bind_ok _ (entry_of_slot hc)]
          simp only [run_assert_bind, bne_iff_ne, ne_eq, hfd, not_false_eq_true,
            decide_True, if_true]
          exact run_bind_fatal _ (entry_of_slot_none hd)
        rw [hrun]
        exact ⟨⟨fun _ => Or.inr (Or.inr rfl), fun _ => rfl⟩, fun _ => rfl⟩
      | some d =>
        obtain ⟨c2, hc2, _⟩ :=
          slot_after_sibling_write s compid descendantid c d c.first_descendant hc hd
        rw [add_descendant_run s compid descendantid c d c2 hc hd hfd hc2]
        refine ⟨⟨fun h => (by cases h), ?_⟩, fun h => (by cases h)⟩
        rintro (h | ⟨c0, h0, h1⟩ | h)
        · cases h
        · cases h0
          exact absurd h1 hfd
        · cases h

/-- On `singletonCache`, where entry 1 has `first_descendant` 0, the call
`add_descendant(1, 0)` fails its assertion and leaves the cache as it was. -/
theorem add_descendant_fatal_iff_witness :
    add_descendant 1 0 singletonCache = .fatal singletonCache :=
  (add_descendant_fatal_iff singletonCache 1 0).2
    ((add_descendant_fatal_iff singletonCache 1 0).1.2 (Or.inr (Or.inl ⟨entryA, rfl, rfl⟩)))

/-! ## Effects of the two link operations, slot by slot -/

theorem slot_setSlot (s : ComponentCache) (id j : CacheEntryID) (e : CachedComponent)
    (h : id < s.entry_base_.length) :
    (s.setSlot id e).slot j = if j = id then some e else s.slot j := by
  by_cases hj : j = id
  · subst hj
    rw [if_pos rfl]
    exact slot_setSlot_self s j e h
  · rw [if_neg hj]
    exact slot_setSlot_ne s id j e hj

/-- What `add_descendant` does to every slot when it passes its assertions:
only `first_descendant` of `compid` and `next_sibling` of `descendantid` are
written. -/
theorem add_descendant_effect (s : ComponentCache) (compid descendantid : CacheEntryID)
    (c d : CachedComponent)
    (hc : s.slot compid = some c) (hd : s.slot descendantid = some d)
    (hne : descendantid ≠ c.first_descendant) :
    ∃ s1, add_descendant compid descendantid s = .ok () s1 ∧
      (∀ x ex, s.slot x = some ex → ∃ ex1, s1.slot x = some ex1 ∧
        ex1.base = ex.base ∧
        ex1.component_stack_id = ex.component_stack_id ∧
        ex1.father = ex.father ∧
        ex1.first_descendant = (if x = compid then descendantid else ex.first_descendant) ∧
        ex1.next_sibling = (if x = descendantid then c.first_descendant else ex.next_sibling)) ∧
      (∀ x, s.slot x = none → s1.slot x = none) ∧
      s1.entry_base_.length = s.entry_base_.length ∧
      s1.free_entry_base_slots_ = s.free_entry_base_slots_ ∧
      s1.table_ = s.table_ ∧
      s1.statistics_ = s.statistics_ := by
  have hclt := slot_lt_length hc
  have hdlt := slot_lt_length hd
  have hlen1 : compid < (s.setSlot descendantid
      (d.set_next_sibling c.first_descendant)).entry_base_.length := by
    rw [length_setSlot]; exact hclt
  by_cases hcd : compid = descendantid
  · subst hcd
    rw [hc] at hd
    cases hd
    have hc2 := slot_setSlot_self s compid (c.set_next_sibling c.first_descendant) hclt
    refine ⟨_, add_descendant_run s compid compid c c _ hc hc hne hc2, ?_, ?_, ?_, rfl, rfl, rfl⟩
    · intro x ex hx
      rw [slot_setSlot _ compid x _ hlen1, slot_setSlot s compid x _ hclt]
      by_cases hxc : x = compid
      · subst hxc
        rw [hc] at hx
        cases hx
        simp only [if_true]
        exact ⟨_, rfl, rfl, rfl, rfl, rfl, rfl⟩
      · simp only [if_neg hxc]
        exact ⟨ex, hx, rfl, rfl, rfl, rfl, rfl⟩
    · intro x hx
      have hxc : x ≠ compid := by
        rintro rfl
        rw [hc] at hx
        cases hx
      rw [slot_setSlot _ compid x _ hlen1, slot_setSlot s compid x _ hclt]
      simp only [if_neg hxc]
      exact hx
    · simp [setSlot]
  · have hc2 : (s.setSlot descendantid (d.set_next_sibling c.first_descendant)).slot compid =
        some c := by
      rw [slot_setSlot_ne s descendantid compid _ hcd]
      exact hc
    refine ⟨_, add_descendant_run s compid descendantid c d c hc hd hne hc2, ?_, ?_, ?_,
      rfl, rfl, rfl⟩
    · intro x ex hx
      rw [slot_setSlot _ compid x _ hlen1, slot_setSlot s descendantid x _ hdlt]
      by_cases hxc : x = compid
      · subst hxc
        rw [hc] at hx
        cases hx
        simp only [if_true, if_neg hcd]
        exact ⟨_, rfl, rfl, rfl, rfl, rfl, rfl⟩
      · simp only [if_neg hxc]
        by_cases hxd : x = descendantid
        · subst hxd
          rw [hd] at hx
          cases hx
          simp only [if_true]
          exact ⟨_, rfl, rfl, rfl, rfl, rfl, rfl⟩
        · simp only [if_neg hxd]
          exact ⟨ex, hx, rfl, rfl, rfl, rfl, rfl⟩
    · intro x hx
      have hxc : x ≠ compid := by
        rintro rfl
        rw [hc] at hx
        cases hx
      have hxd : x ≠ descendantid := by
        rintro rfl
        rw [hd] at hx
        cases hx
      rw [slot_setSlot _ compid x _ hlen1, slot_setSlot s descendantid x _ hdlt]
      simp only [if_neg hxc, if_neg hxd]
      exact hx
    · simp [setSlot]

/-- The run of `remove_firstdescendantOf` when `compid` has no child. -/
theorem remove_firstdescendantOf_run_nil (s : ComponentCache) (compid : CacheEntryID)
    (c : CachedComponent) (hc : s.slot compid = some c)
    (h0 : c.first_descendant = NIL_ENTRY) :
    remove_firstdescendantOf compid s = .ok () s := by
  unfold remove_firstdescendantOf
  rw [run_bind_ok _ (entry_of_slot hc)]
  have h1 : c.first_descendant = 0 := h0
  simp [h1]

/-- The run of `remove_firstdescendantOf` when the first child is a live entry. -/
theorem remove_firstdescendantOf_run_cons (s : ComponentCache) (compid : CacheEntryID)
    (c d : CachedComponent) (hc : s.slot compid = some c)
    (h0 : c.first_descendant ≠ NIL_ENTRY) (hd : s.slot c.first_descendant = some d) :
    remove_firstdescendantOf compid s =
      .ok () (s.setSlot compid (c.set_first_descendant d.next_sibling)) := by
  unfold remove_firstdescendantOf
  rw [run_bind_ok _ (entry_of_slot hc)]
  have h1 : ¬ c.first_descendant = 0 := h0
  simp only [bne_iff_ne, ne_eq, h1, not_false_eq_true, if_true]
  rw [run_bind_ok _ (entry_of_slot hc), run_bind_ok _ (entry_of_slot hd)]
  rfl

/-- What `remove_firstdescendantOf` does to every slot when the first child
is a live entry: only `first_descendant` of `compid` is written. -/
theorem remove_firstdescendantOf_effect (s : ComponentCache) (compid : CacheEntryID)
    (c d : CachedComponent) (hc : s.slot compid = some c)
    (h0 : c.first_descendant ≠ NIL_ENTRY) (hd : s.slot c.first_descendant = some d) :
    ∃ s1, remove_firstdescendantOf compid s = .ok () s1 ∧
      (∀ x ex, s.slot x = some ex → ∃ ex1, s1.slot x = some ex1 ∧
        ex1.base = ex.base ∧
        ex1.component_stack_id = ex.component_stack_id ∧
        ex1.father = ex.father ∧
        ex1.next_sibling = ex.next_sibling ∧
        ex1.first_descendant = (if x = compid then d.next_sibling else ex.first_descendant)) ∧
      (∀ x, s.slot x = none → s1.slot x = none) ∧
      s1.entry_base_.length = s.entry_base_.length ∧
      s1.free_entry_base_slots_ = s.free_entry_base_slots_ ∧
      s1.table_ = s.table_ ∧
      s1.statistics_ = s.statistics_ := by
  have hclt := slot_lt_length hc
  refine ⟨_, remove_firstdescendantOf_run_cons s compid c d hc h0 hd, ?_, ?_, ?_, rfl, rfl, rfl⟩
  · intro x ex hx
    rw [slot_setSlot s compid x _ hclt]
    by_cases hxc : x = compid
    · subst hxc
      rw [hc] at hx
      cases hx
      simp only [if_true]
      exact ⟨_, rfl, rfl, rfl, rfl, rfl, rfl⟩
    · simp only [if_neg hxc]
      exact ⟨ex, hx, rfl, rfl, rfl, rfl, rfl⟩
  · intro x hx
    have hxc : x ≠ compid := by
      rintro rfl
      rw [hc] at hx
      cases hx
    rw [slot_setSlot s compid x _ hclt, if_neg hxc]
    exact hx
  · simp [setSlot]

/-- A sibling chain survives any change of state that keeps the entries of the
chain live with the same `next_sibling`. -/
theorem IsSiblingChain_mono (s s1 : ComponentCache) :
    ∀ (L : List CacheEntryID) (x : CacheEntryID),
      (∀ y ∈ L, ∀ e, s.slot y = some e →
        ∃ e1, s1.slot y = some e1 ∧ e1.next_sibling = e.next_sibling) →
      s.IsSiblingChain x L → s1.IsSiblingChain x L := by
  intro L
  induction L with
  | nil => intro x _ h; exact h
  | cons y L ih =>
    intro x hpres h
    obtain ⟨hx0, hyx, e, hs, hrest⟩ := h
    subst hyx
    obtain ⟨e1, hs1, hns⟩ := hpres y (List.mem_cons_self _ _) e hs
    refine ⟨hx0, rfl, e1, hs1, ?_⟩
    rw [hns]
    exact ih e.next_sibling (fun z hz => hpres z (List.mem_cons_of_mem _ hz)) hrest

/-! ## Child lists -/

/-- C17. Splicing out the first child: for a live `compid`, if
`first_descendant(compid)` is NIL the call changes nothing; otherwise, with
the first child `desc` live, `first_descendant(compid)` becomes the old
`next_sibling(desc)`, so the child list loses its head; only the
`first_descendant` of `compid` is written. -/
theorem remove_firstdescendantOf_spec (s : ComponentCache) (compid : CacheEntryID)
    (c : CachedComponent) (hc : s.slot compid = some c) :
    (c.first_descendant = NIL_ENTRY → remove_firstdescendantOf compid s = .ok () s) ∧
    (∀ d, c.first_descendant ≠ NIL_ENTRY → s.slot c.first_descendant = some d →
      ∃ s1, remove_firstdescendantOf compid s = .ok () s1 ∧
        (∃ c1, s1.slot compid = some c1 ∧ c1.first_descendant = d.next_sibling) ∧
        (∀ L, s.HasChildren compid L → s1.HasChildren compid L.tail) ∧
        (∀ x ex, s.slot x = some ex → ∃ ex1, s1.slot x = some ex1 ∧
          ex1.base = ex.base ∧
          ex1.component_stack_id = ex.component_stack_id ∧
          ex1.father = ex.father ∧
          ex1.next_sibling = ex.next_sibling ∧
          (x ≠ compid → ex1.first_descendant = ex.first_descendant)) ∧
        (∀ x, s.slot x = none → s1.slot x = none) ∧
        s1.entry_base_.length = s.entry_base_.length ∧
        s1.free_entry_base_slots_ = s.free_entry_base_slots_ ∧
        s1.table_ = s.table_ ∧
        s1.statistics_ = s.statistics_) := by
  refine ⟨remove_firstdescendantOf_run_nil s compid c hc, ?_⟩
  intro d h0 hd
  obtain ⟨s1, hrun, heff, hnone, hlen, hfree, htab, hstat⟩ :=
    remove_firstdescendantOf_effect s compid c d hc h0 hd
  obtain ⟨c1, hc1, _, _, _, _, hfd1⟩ := heff compid c hc
  rw [if_pos rfl] at hfd1
  have hmono : ∀ L : List CacheEntryID, ∀ y ∈ L, ∀ e, s.slot y = some e →
      ∃ e1, s1.slot y = some e1 ∧ e1.next_sibling = e.next_sibling := by
    intro L y _ e he
    obtain ⟨e1, he1, _, _, _, hns, _⟩ := heff y e he
    exact ⟨e1, he1, hns⟩
  refine ⟨s1, hrun, ⟨c1, hc1, hfd1⟩, ?_, ?_, hnone, hlen, hfree, htab, hstat⟩
  · rintro L ⟨c0, hc0, hchain⟩
    rw [hc] at hc0
    cases hc0
    cases L with
    | nil => exact absurd hchain h0
    | cons y L1 =>
      obtain ⟨_, _, e, he, hrest⟩ := hchain
      rw [hd] at he
      cases he
      refine ⟨c1, hc1, ?_⟩
      rw [hfd1]
      exact IsSiblingChain_mono s s1 L1 _ (hmono L1) hrest
  · intro x ex hx
    obtain ⟨ex1, hx1, hb, hsid, hfa, hns, hfd⟩ := heff x ex hx
    refine ⟨ex1, hx1, hb, hsid, hfa, hns, ?_⟩
    intro hxc
    rw [hfd, if_neg hxc]

/-- On `chainCache`, whose entry 1 has the children `[2, 3]`, the call leaves
entry 1 with `first_descendant` 3. -/
theorem remove_firstdescendantOf_spec_witness :
    ∃ s1, remove_firstdescendantOf 1 chainCache = .ok () s1 ∧
      (∃ c1, s1.slot 1 = some c1 ∧ c1.first_descendant = 3) ∧
      (∀ L, chainCache.HasChildren 1 L → s1.HasChildren 1 L.tail) ∧
      (∀ x ex, chainCache.slot x = some ex → ∃ ex1, s1.slot x = some ex1 ∧
        ex1.base = ex.base ∧
        ex1.component_stack_id = ex.component_stack_id ∧
        ex1.father = ex.father ∧
        ex1.next_sibling = ex.next_sibling ∧
        (x ≠ 1 → ex1.first_descendant = ex.first_descendant)) ∧
      (∀ x, chainCache.slot x = none → s1.slot x = none) ∧
      s1.entry_base_.length = chainCache.entry_base_.length ∧
      s1.free_entry_base_slots_ = chainCache.free_entry_base_slots_ ∧
      s1.table_ = chainCache.table_ ∧
      s1.statistics_ = chainCache.statistics_ :=
  (remove_firstdescendantOf_spec chainCache 1 { entryA with first_descendant_ := 2 } rfl).2
    { entryB with father_ := 1, next_sibling_ := 3 } (by decide) rfl

/-- C13 (amended). Child list after linking: when the child list of `compid`
is the finite list `L` of live ids and `descendantid` is a live id other than
`NIL_ENTRY` that does not occur in `L`, `add_descendant` returns and the child
list of `compid` is then `descendantid :: L`; the child list of every other
live entry, when it does not contain `descendantid`, is unchanged. -/
theorem add_descendant_children (s : ComponentCache) (compid descendantid : CacheEntryID)
    (d : CachedComponent) (L : List CacheEntryID)
    (hL : s.HasChildren compid L) (hd : s.slot descendantid = some d)
    (hnil : descendantid ≠ NIL_ENTRY) (hnotin : descendantid ∉ L) :
    ∃ s1, add_descendant compid descendantid s = .ok () s1 ∧
      s1.HasChildren compid (descendantid :: L) ∧
      (descendantid :: L).length = L.length + 1 ∧
      ∀ x Lx, x ≠ compid → s.HasChildren x Lx → descendantid ∉ Lx →
        s1.HasChildren x Lx := by
  obtain ⟨c, hc, hchain⟩ := hL
  have hne : descendantid ≠ c.first_descendant := by
    cases L with
    | nil =>
      have h0 : c.first_descendant = NIL_ENTRY := hchain
      rw [h0]
      exact hnil
    | cons y L1 =>
      obtain ⟨_, hy, _⟩ := hchain
      intro h
      exact hnotin (by rw [hy, h]; exact List.mem_cons_self _ _)
  obtain ⟨s1, hrun, heff, _⟩ := add_descendant_effect s compid descendantid c d hc hd hne
  have hmono : ∀ M : List CacheEntryID, descendantid ∉ M → ∀ y ∈ M, ∀ e, s.slot y = some e →
      ∃ e1, s1.slot y = some e1 ∧ e1.next_sibling = e.next_sibling := by
    intro M hM y hy e he
    obtain ⟨e1, he1, _, _, _, _, hns⟩ := heff y e he
    have hyd : y ≠ descendantid := by
      rintro rfl
      exact hM hy
    rw [if_neg hyd] at hns
    exact ⟨e1, he1, hns⟩
  refine ⟨s1, hrun, ?_, rfl, ?_⟩
  · obtain ⟨c1, hc1, _, _, _, hfd1, _⟩ := heff compid c hc
    rw [if_pos rfl] at hfd1
    obtain ⟨d1, hd1, _, _, _, _, hns1⟩ := heff descendantid d hd
    rw [if_pos rfl] at hns1
    refine ⟨c1, hc1, ?_⟩
    rw [hfd1]
    refine ⟨hnil, rfl, d1, hd1, ?_⟩
    rw [hns1]
    exact IsSiblingChain_mono s s1 L _ (hmono L hnotin) hchain
  · rintro x Lx hxc ⟨ex, hx, hchx⟩ hnotx
    obtain ⟨ex1, hx1, _, _, _, hfd, _⟩ := heff x ex hx
    rw [if_neg hxc] at hfd
    refine ⟨ex1, hx1, ?_⟩
    rw [hfd]
    exact IsSiblingChain_mono s s1 Lx _ (hmono Lx hnotx) hchx

/-- C13, as stated, fails for `descendantid == 0` when slot 0 holds an entry:
in `zeroSlotCache` entry 1 has the child list `[2]`, id 0 is live and not in
that list, and `add_descendant(1, 0)` returns; afterwards the child list of
entry 1 is `[]`, not `[0, 2]`. -/
theorem add_descendant_children_nil_counterexample :
    zeroSlotCache.HasChildren 1 [2] ∧
    zeroSlotCache.slot 0 = some dummyEntry ∧
    (0 : CacheEntryID) ∉ [2] ∧
    (add_descendant 1 0 zeroSlotCache).isFatal = false ∧
    (add_descendant 1 0 zeroSlotCache).state.HasChildren 1 [] ∧
    ¬ (add_descendant 1 0 zeroSlotCache).state.HasChildren 1 [0, 2] := by
  refine ⟨⟨_, rfl, by decide, rfl, _, rfl, rfl⟩, rfl, by decide, rfl, ⟨_, rfl, rfl⟩, ?_⟩
  rintro ⟨c1, hc1, h0, _⟩
  have hs : (add_descendant 1 0 zeroSlotCache).state.slot 1 =
      some { entryA with first_descendant_ := 0 } := rfl
  rw [hs] at hc1
  cases hc1
  exact h0 rfl

/-- On `familyCache`, where entry 1 has the child list `[2]`, linking entry 3
gives the child list `[3, 2]`. -/
theorem add_descendant_children_witness :
    ∃ s1, add_descendant 1 3 familyCache = .ok () s1 ∧
      s1.HasChildren 1 (3 :: [2]) ∧
      (3 :: ([2] : List CacheEntryID)).length = ([2] : List CacheEntryID).length + 1 ∧
      ∀ x Lx, x ≠ 1 → familyCache.HasChildren x Lx → 3 ∉ Lx → s1.HasChildren x Lx :=
  add_descendant_children familyCache 1 3 entryB2 [2]
    ⟨_, rfl, by decide, rfl, _, rfl, rfl⟩ rfl (by decide) (by decide)

/-! ## Cycles and round trips -/

theorem cyclicCache_walk (n : Nat) :
    (cyclicCache.siblingWalk n 3 = some 3 ∨ cyclicCache.siblingWalk n 3 = some 2) ∧
    (cyclicCache.siblingWalk n 2 = some 2 ∨ cyclicCache.siblingWalk n 2 = some 3) := by
  induction n with
  | zero => exact ⟨Or.inl rfl, Or.inl rfl⟩
  | succ n ih =>
    have h3 : cyclicCache.siblingWalk (n + 1) 3 = cyclicCache.siblingWalk n 2 := rfl
    have h2 : cyclicCache.siblingWalk (n + 1) 2 = cyclicCache.siblingWalk n 3 := rfl
    rw [h3, h2]
    exact ⟨ih.2.symm, ih.1.symm⟩

theorem cyclicCache_no_chain (L : List CacheEntryID) :
    ¬ cyclicCache.IsSiblingChain 3 L ∧ ¬ cyclicCache.IsSiblingChain 2 L := by
  induction L with
  | nil =>
    constructor
    · intro h
      have h3 : (3 : CacheEntryID) = 0 := h
      exact absurd h3 (by decide)
    · intro h
      have h2 : (2 : CacheEntryID) = 0 := h
      exact absurd h2 (by decide)
  | cons y L ih =>
    constructor
    · rintro ⟨_, _, e, he, hrest⟩
      have hs : cyclicCache.slot 3 =
          some { entryB2 with father_ := 1, next_sibling_ := 2 } := rfl
      rw [hs] at he
      cases he
      exact ih.2 hrest
    · rintro ⟨_, _, e, he, hrest⟩
      have hs : cyclicCache.slot 2 =
          some { entryB with father_ := 1, next_sibling_ := 3 } := rfl
      rw [hs] at he
      cases he
      exact ih.1 hrest

/-- C14. The assertion of `add_descendant` does not keep the sibling chain
acyclic: there is a cache in which the child chain of `compid` is a finite
duplicate-free list of live entries and `descendantid` is a live entry of
that chain other than its head, so that the assertion passes, for which
`add_descendant` returns and leaves a child chain of `compid` along which
`next_sibling` never reaches `NIL_ENTRY`. -/
theorem add_descendant_can_close_cycle :
    ∃ (s : ComponentCache) (compid descendantid : CacheEntryID) (c : CachedComponent)
      (L : List CacheEntryID),
      s.slot compid = some c ∧
      s.IsSiblingChain c.first_descendant L ∧
      L.Nodup ∧
      (∀ x ∈ L, ∃ e, s.slot x = some e) ∧
      (∃ e, s.slot descendantid = some e) ∧
      descendantid ≠ c.first_descendant ∧
      descendantid ∈ L ∧
      ∃ s1 c1, add_descendant compid descendantid s = .ok () s1 ∧
        s1.slot compid = some c1 ∧
        (∀ n, ∃ y, s1.siblingWalk n c1.first_descendant = some y ∧ y ≠ NIL_ENTRY) ∧
        (∀ L1, ¬ s1.HasChildren compid L1) := by
  refine ⟨chainCache, 1, 3, { entryA with first_descendant_ := 2 }, [2, 3], rfl,
    ⟨by decide, rfl, _, rfl, by decide, rfl, _, rfl, rfl⟩, by decide, ?_, ⟨_, rfl⟩,
    by decide, by decide, cyclicCache, { entryA with first_descendant_ := 3 }, rfl, rfl, ?_, ?_⟩
  · intro x hx
    simp only [List.mem_cons, List.mem_singleton, List.not_mem_nil, or_false] at hx
    rcases hx with rfl | rfl
    · exact ⟨_, rfl⟩
    · exact ⟨_, rfl⟩
  · intro n
    rcases (cyclicCache_walk n).1 with h | h
    · exact ⟨3, h, by decide⟩
    · exact ⟨2, h, by decide⟩
  · rintro L1 ⟨c1, hc1, hchain⟩
    have hs : cyclicCache.slot 1 = some { entryA with first_descendant_ := 3 } := rfl
    rw [hs] at hc1
    cases hc1
    exact (cyclicCache_no_chain L1).1 hchain

/-- C19 (amended). Link/unlink round trip: for live ids `compid`,
`descendantid` with `descendantid` neither `first_descendant(compid)` nor
`NIL_ENTRY` (the case `descendantid == compid` included), `add_descendant`
followed by `remove_firstdescendantOf(compid)` both return and restore
`first_descendant(compid)`; the only field that may differ from the original
state is the `next_sibling` of `descendantid`, which holds the old
`first_descendant(compid)`. -/
theorem add_then_remove_restores (s : ComponentCache) (compid descendantid : CacheEntryID)
    (c d : CachedComponent)
    (hc : s.slot compid = some c) (hd : s.slot descendantid = some d)
    (hne : descendantid ≠ c.first_descendant) (hnil : descendantid ≠ NIL_ENTRY) :
    ∃ s1 s2, add_descendant compid descendantid s = .ok () s1 ∧
      remove_firstdescendantOf compid s1 = .ok () s2 ∧
      (∃ c2, s2.slot compid = some c2 ∧ c2.first_descendant = c.first_descendant) ∧
      (∃ d2, s2.slot descendantid = some d2 ∧ d2.next_sibling = c.first_descendant) ∧
      (∀ x ex, s.slot x = some ex → ∃ ex2, s2.slot x = some ex2 ∧
        ex2.base = ex.base ∧
        ex2.component_stack_id = ex.component_stack_id ∧
        ex2.father = ex.father ∧
        ex2.first_descendant = ex.first_descendant ∧
        (x ≠ descendantid → ex2.next_sibling = ex.next_sibling)) ∧
      (∀ x, s.slot x = none → s2.slot x = none) ∧
      s2.entry_base_.length = s.entry_base_.length ∧
      s2.free_entry_base_slots_ = s.free_entry_base_slots_ ∧
      s2.table_ = s.table_ ∧
      s2.statistics_ = s.statistics_ := by
  obtain ⟨s1, hrun1, heff1, hnone1, hlen1, hfree1, htab1, hstat1⟩ :=
    add_descendant_effect s compid descendantid c d hc hd hne
  obtain ⟨c1, hc1, _, _, _, hfd1, _⟩ := heff1 compid c hc
  rw [if_pos rfl] at hfd1
  obtain ⟨d1, hd1, _, _, _, _, hns1⟩ := heff1 descendantid d hd
  rw [if_pos rfl] at hns1
  have h0 : c1.first_descendant ≠ NIL_ENTRY := by rw [hfd1]; exact hnil
  have hd1' : s1.slot c1.first_descendant = some d1 := by rw [hfd1]; exact hd1
  obtain ⟨s2, hrun2, heff2, hnone2, hlen2, hfree2, htab2, hstat2⟩ :=
    remove_firstdescendantOf_effect s1 compid c1 d1 hc1 h0 hd1'
  have hall : ∀ x ex, s.slot x = some ex → ∃ ex2, s2.slot x = some ex2 ∧
      ex2.base = ex.base ∧
      ex2.component_stack_id = ex.component_stack_id ∧
      ex2.father = ex.father ∧
      ex2.first_descendant = ex.first_descendant ∧
      ex2.next_sibling = (if x = descendantid then c.first_descendant else ex.next_sibling) := by
    intro x ex hx
    obtain ⟨ex1, hx1, hb1, hsid1, hfa1, hfdx1, hnsx1⟩ := heff1 x ex hx
    obtain ⟨ex2, hx2, hb2, hsid2, hfa2, hnsx2, hfdx2⟩ := heff2 x ex1 hx1
    refine ⟨ex2, hx2, hb2.trans hb1, hsid2.trans hsid1, hfa2.trans hfa1, ?_, hnsx2.trans hnsx1⟩
    by_cases hxc : x = compid
    · subst hxc
      rw [hc] at hx
      cases hx
      rw [hfdx2, if_pos rfl, hns1]
    · rw [hfdx2, if_neg hxc, hfdx1, if_neg hxc]
  refine ⟨s1, s2, hrun1, hrun2, ?_, ?_, ?_, fun x hx => hnone2 x (hnone1 x hx),
    hlen2.trans hlen1, hfree2.trans hfree1, htab2.trans htab1, hstat2.trans hstat1⟩
  · obtain ⟨c2, hc2, _, _, _, hfd2, _⟩ := hall compid c hc
    exact ⟨c2, hc2, hfd2⟩
  · obtain ⟨d2, hd2, _, _, _, _, hns2⟩ := hall descendantid d hd
    rw [if_pos rfl] at hns2
    exact ⟨d2, hd2, hns2⟩
  · intro x ex hx
    obtain ⟨ex2, hx2, hb, hsid, hfa, hfd, hns⟩ := hall x ex hx
    refine ⟨ex2, hx2, hb, hsid, hfa, hfd, ?_⟩
    intro hxd
    rw [hns, if_neg hxd]

/-- C19, as stated, fails for `descendantid == 0` when slot 0 holds an entry:
in `zeroSlotCache` entry 1 has `first_descendant` 2 and id 0 is live, so
`add_descendant(1, 0)` returns with `first_descendant(1) == 0`; then
`remove_firstdescendantOf(1)` sees NIL and writes nothing, and
`first_descendant(1)` stays 0 instead of returning to 2. -/
theorem add_then_remove_nil_counterexample :
    zeroSlotCache.slot 0 = some dummyEntry ∧
    zeroSlotCache.slot 1 = some { entryA with first_descendant_ := 2 } ∧
    (add_descendant 1 0 zeroSlotCache).isFatal = false ∧
    (remove_firstdescendantOf 1 (add_descendant 1 0 zeroSlotCache).state).isFatal = false ∧
    (remove_firstdescendantOf 1 (add_descendant 1 0 zeroSlotCache).state).state.slot 1 =
      some { entryA with first_descendant_ := 0 } := by
  refine ⟨rfl, rfl, rfl, rfl, rfl⟩

/-- On `familyCache`: linking entry 3 under entry 1 and splicing it out again
leaves entry 1 with `first_descendant` 2. -/
theorem add_then_remove_restores_witness :
    ∃ s1 s2, add_descendant 1 3 familyCache = .ok () s1 ∧
      remove_firstdescendantOf 1 s1 = .ok () s2 ∧
      (∃ c2, s2.slot 1 = some c2 ∧ c2.first_descendant = 2) ∧
      (∃ d2, s2.slot 3 = some d2 ∧ d2.next_sibling = 2) ∧
      (∀ x ex, familyCache.slot x = some ex → ∃ ex2, s2.slot x = some ex2 ∧
        ex2.base = ex.base ∧
        ex2.component_stack_id = ex.component_stack_id ∧
        ex2.father = ex.father ∧
        ex2.first_descendant = ex.first_descendant ∧
        (x ≠ 3 → ex2.next_sibling = ex.next_sibling)) ∧
      (∀ x, familyCache.slot x = none → s2.slot x = none) ∧
      s2.entry_base_.length = familyCache.entry_base_.length ∧
      s2.free_entry_base_slots_ = familyCache.free_entry_base_slots_ ∧
      s2.table_ = familyCache.table_ ∧
      s2.statistics_ = familyCache.statistics_ :=
  add_then_remove_restores familyCache 1 3 { entryA with first_descendant_ := 2 } entryB2
    rfl rfl (by decide) (by decide)

end ComponentCache

end SharpSAT
